import Mathlib

/-!
Verification of the ublox streaming frame parser (`src/ublox/src/parser.rs`).

The parser reassembles a chunked byte stream into checksum-validated UBX
frames.  Bytes are modelled as natural numbers (`u8` values are `< 256`;
every modular operation of the source carries an explicit `% 256`).  The
packet dispatcher (`match_packet`) is an external boundary and is modelled
as an opaque function parameter `mp`.
-/

namespace Ublox

/-- Modelled from the spec: first byte of the fixed two-byte frame marker
(`SYNC_CHAR_1` in the `ubx_packets` module, which is not part of the given
sources).  The concrete value is the UBX protocol's 0xB5. -/
def SYNC_CHAR_1 : Nat := 181

/-- Modelled from the spec: second byte of the fixed two-byte frame marker
(`SYNC_CHAR_2` in the `ubx_packets` module).  The concrete value is the UBX
protocol's 0x62. -/
def SYNC_CHAR_2 : Nat := 98

/-- Modelled from the spec: protocol ceiling on payload length
(`MAX_PAYLOAD_LEN` in the `ubx_packets` module).  The spec guarantees it is
at least 1240; we take that minimal admissible value.  None of the general
theorems depend on the exact number. -/
def MAX_PAYLOAD_LEN : Nat := 1240

/-- Modelled from the spec: the two-accumulator Fletcher-style checksum
(`ubx_checksum` in the `ubx_packets` module): starting from `(0, 0)`, for
each byte `b` in order, `ck_a = (ck_a + b) % 256` and
`ck_b = (ck_b + ck_a) % 256`. -/
def ubx_checksum (data : List Nat) : Nat × Nat :=
  data.foldl (fun ck b =>
    ((ck.1 + b) % 256, (ck.2 + (ck.1 + b) % 256) % 256)) (0, 0)

/-- One outcome produced by `ParserIter::next`: either the parser's own
checksum-mismatch error (`ParserError::InvalidChecksum { expect, got }`)
or the packet dispatcher's result for the framed `(class, id, payload)`
triple, which is opaque here (type `R` covers both decoded packets and
dispatcher-level decode errors). -/
inductive Outcome (R : Type) : Type where
  | invalidChecksum (expect got : Nat) : Outcome R
  | dispatched (r : R) : Outcome R
  deriving DecidableEq

/-- The little-endian 16-bit length field read by
`u16::from_le_bytes([maybe_pack[4], maybe_pack[5]])`. -/
def packLen (mpk : List Nat) : Nat :=
  mpk.getD 4 0 + 256 * mpk.getD 5 0

/-- `ParserIter::next` (src/ublox/src/parser.rs lines 231-275).  `buf` is the
parser's byte store, `off` the scan cursor `self.off`; the result is the
yielded outcome (`None` = end of sequence, wait for more data) together with
the final value of `self.off`.  `buf.drop off` is the slice
`&self.buf[self.off..]` (Rust's `data`) and `buf.drop (off + pos)` is
`maybe_pack`. -/
def ParserIterNext {R : Type} (mp : Nat → Nat → List Nat → R)
    (buf : List Nat) (off : Nat) : Option (Outcome R) × Nat :=
  if _hlt : off < buf.length then
    match (buf.drop off).findIdx? (fun x => x == SYNC_CHAR_1) with
    | none => (none, off)
    | some pos =>
      if (buf.drop (off + pos)).length ≤ 1 then (none, off)
      else if (buf.drop (off + pos)).getD 1 0 ≠ SYNC_CHAR_2 then
        ParserIterNext mp buf (off + pos + 2)
      else if (buf.drop (off + pos)).length ≤ 5 then (none, off)
      else if MAX_PAYLOAD_LEN < packLen (buf.drop (off + pos)) then
        ParserIterNext mp buf (off + pos + 2)
      else if (buf.drop (off + pos)).length < packLen (buf.drop (off + pos)) + 6 + 2 then
        (none, off)
      else if ubx_checksum (((buf.drop (off + pos)).drop 2).take
                 (4 + packLen (buf.drop (off + pos)))) ≠
               ((buf.drop (off + pos)).getD (6 + packLen (buf.drop (off + pos))) 0,
                (buf.drop (off + pos)).getD (6 + packLen (buf.drop (off + pos)) + 1) 0) then
        (some (.invalidChecksum
            ((buf.drop (off + pos)).getD (6 + packLen (buf.drop (off + pos))) 0 +
              256 * (buf.drop (off + pos)).getD (6 + packLen (buf.drop (off + pos)) + 1) 0)
            ((ubx_checksum (((buf.drop (off + pos)).drop 2).take
                (4 + packLen (buf.drop (off + pos))))).1 +
              256 * (ubx_checksum (((buf.drop (off + pos)).drop 2).take
                (4 + packLen (buf.drop (off + pos))))).2)),
          off + pos + 2)
      else
        (some (.dispatched (mp ((buf.drop (off + pos)).getD 2 0)
            ((buf.drop (off + pos)).getD 3 0)
            (((buf.drop (off + pos)).drop 6).take (packLen (buf.drop (off + pos)))))),
          off + pos + 6 + packLen (buf.drop (off + pos)) + 2)
  else (none, off)
termination_by buf.length - off
decreasing_by all_goals omega

/-! ### Branch equations for `ParserIterNext`

One lemma per exit of the scan loop, mirroring steps 1-9 of the spec's
Frame Scanner state machine.  All later proofs go through these instead of
unfolding the definition again. -/

theorem next_stop {R : Type} (mp : Nat → Nat → List Nat → R) (buf : List Nat) (off : Nat)
    (h : buf.length ≤ off) : ParserIterNext mp buf off = (none, off) := by
  rw [ParserIterNext.eq_def]
  simp only [dif_neg (Nat.not_lt.mpr h)]

theorem next_noSync {R : Type} (mp : Nat → Nat → List Nat → R) (buf : List Nat) (off : Nat)
    (h : off < buf.length)
    (hfind : (buf.drop off).findIdx? (fun x => x == SYNC_CHAR_1) = none) :
    ParserIterNext mp buf off = (none, off) := by
  rw [ParserIterNext.eq_def]
  simp only [dif_pos h, hfind]

theorem next_short1 {R : Type} (mp : Nat → Nat → List Nat → R) (buf : List Nat) (off pos : Nat)
    (h : off < buf.length)
    (hfind : (buf.drop off).findIdx? (fun x => x == SYNC_CHAR_1) = some pos)
    (h1 : (buf.drop (off + pos)).length ≤ 1) :
    ParserIterNext mp buf off = (none, off) := by
  rw [ParserIterNext.eq_def]
  simp only [dif_pos h, hfind]
  rw [if_pos h1]

theorem next_badsync2 {R : Type} (mp : Nat → Nat → List Nat → R) (buf : List Nat) (off pos : Nat)
    (h : off < buf.length)
    (hfind : (buf.drop off).findIdx? (fun x => x == SYNC_CHAR_1) = some pos)
    (h1 : ¬ (buf.drop (off + pos)).length ≤ 1)
    (h2 : (buf.drop (off + pos)).getD 1 0 ≠ SYNC_CHAR_2) :
    ParserIterNext mp buf off = ParserIterNext mp buf (off + pos + 2) := by
  conv_lhs => rw [ParserIterNext.eq_def]
  simp only [dif_pos h, hfind]
  rw [if_neg h1, if_pos h2]

theorem next_short5 {R : Type} (mp : Nat → Nat → List Nat → R) (buf : List Nat) (off pos : Nat)
    (h : off < buf.length)
    (hfind : (buf.drop off).findIdx? (fun x => x == SYNC_CHAR_1) = some pos)
    (h1 : ¬ (buf.drop (off + pos)).length ≤ 1)
    (h2 : (buf.drop (off + pos)).getD 1 0 = SYNC_CHAR_2)
    (h3 : (buf.drop (off + pos)).length ≤ 5) :
    ParserIterNext mp buf off = (none, off) := by
  rw [ParserIterNext.eq_def]
  simp only [dif_pos h, hfind]
  rw [if_neg h1, if_neg (not_not_intro h2), if_pos h3]

theorem next_oversize {R : Type} (mp : Nat → Nat → List Nat → R) (buf : List Nat) (off pos : Nat)
    (h : off < buf.length)
    (hfind : (buf.drop off).findIdx? (fun x => x == SYNC_CHAR_1) = some pos)
    (h1 : ¬ (buf.drop (off + pos)).length ≤ 1)
    (h2 : (buf.drop (off + pos)).getD 1 0 = SYNC_CHAR_2)
    (h3 : ¬ (buf.drop (off + pos)).length ≤ 5)
    (h4 : MAX_PAYLOAD_LEN < packLen (buf.drop (off + pos))) :
    ParserIterNext mp buf off = ParserIterNext mp buf (off + pos + 2) := by
  conv_lhs => rw [ParserIterNext.eq_def]
  simp only [dif_pos h, hfind]
  rw [if_neg h1, if_neg (not_not_intro h2), if_neg h3, if_pos h4]

theorem next_incomplete {R : Type} (mp : Nat → Nat → List Nat → R) (buf : List Nat) (off pos : Nat)
    (h : off < buf.length)
    (hfind : (buf.drop off).findIdx? (fun x => x == SYNC_CHAR_1) = some pos)
    (h1 : ¬ (buf.drop (off + pos)).length ≤ 1)
    (h2 : (buf.drop (off + pos)).getD 1 0 = SYNC_CHAR_2)
    (h3 : ¬ (buf.drop (off + pos)).length ≤ 5)
    (h4 : ¬ MAX_PAYLOAD_LEN < packLen (buf.drop (off + pos)))
    (h5 : (buf.drop (off + pos)).length < packLen (buf.drop (off + pos)) + 6 + 2) :
    ParserIterNext mp buf off = (none, off) := by
  rw [ParserIterNext.eq_def]
  simp only [dif_pos h, hfind]
  rw [if_neg h1, if_neg (not_not_intro h2), if_neg h3, if_neg h4, if_pos h5]

theorem next_mismatch {R : Type} (mp : Nat → Nat → List Nat → R) (buf : List Nat) (off pos : Nat)
    (h : off < buf.length)
    (hfind : (buf.drop off).findIdx? (fun x => x == SYNC_CHAR_1) = some pos)
    (h1 : ¬ (buf.drop (off + pos)).length ≤ 1)
    (h2 : (buf.drop (off + pos)).getD 1 0 = SYNC_CHAR_2)
    (h3 : ¬ (buf.drop (off + pos)).length ≤ 5)
    (h4 : ¬ MAX_PAYLOAD_LEN < packLen (buf.drop (off + pos)))
    (h5 : ¬ (buf.drop (off + pos)).length < packLen (buf.drop (off + pos)) + 6 + 2)
    (h6 : ubx_checksum (((buf.drop (off + pos)).drop 2).take
            (4 + packLen (buf.drop (off + pos)))) ≠
          ((buf.drop (off + pos)).getD (6 + packLen (buf.drop (off + pos))) 0,
           (buf.drop (off + pos)).getD (6 + packLen (buf.drop (off + pos)) + 1) 0)) :
    ParserIterNext mp buf off =
      (some (.invalidChecksum
          ((buf.drop (off + pos)).getD (6 + packLen (buf.drop (off + pos))) 0 +
            256 * (buf.drop (off + pos)).getD (6 + packLen (buf.drop (off + pos)) + 1) 0)
          ((ubx_checksum (((buf.drop (off + pos)).drop 2).take
              (4 + packLen (buf.drop (off + pos))))).1 +
            256 * (ubx_checksum (((buf.drop (off + pos)).drop 2).take
              (4 + packLen (buf.drop (off + pos))))).2)),
        off + pos + 2) := by
  rw [ParserIterNext.eq_def]
  simp only [dif_pos h, hfind]
  rw [if_neg h1, if_neg (not_not_intro h2), if_neg h3, if_neg h4, if_neg h5, if_pos h6]

theorem next_success {R : Type} (mp : Nat → Nat → List Nat → R) (buf : List Nat) (off pos : Nat)
    (h : off < buf.length)
    (hfind : (buf.drop off).findIdx? (fun x => x == SYNC_CHAR_1) = some pos)
    (h1 : ¬ (buf.drop (off + pos)).length ≤ 1)
    (h2 : (buf.drop (off + pos)).getD 1 0 = SYNC_CHAR_2)
    (h3 : ¬ (buf.drop (off + pos)).length ≤ 5)
    (h4 : ¬ MAX_PAYLOAD_LEN < packLen (buf.drop (off + pos)))
    (h5 : ¬ (buf.drop (off + pos)).length < packLen (buf.drop (off + pos)) + 6 + 2)
    (h6 : ubx_checksum (((buf.drop (off + pos)).drop 2).take
            (4 + packLen (buf.drop (off + pos)))) =
          ((buf.drop (off + pos)).getD (6 + packLen (buf.drop (off + pos))) 0,
           (buf.drop (off + pos)).getD (6 + packLen (buf.drop (off + pos)) + 1) 0)) :
    ParserIterNext mp buf off =
      (some (.dispatched (mp ((buf.drop (off + pos)).getD 2 0)
          ((buf.drop (off + pos)).getD 3 0)
          (((buf.drop (off + pos)).drop 6).take (packLen (buf.drop (off + pos)))))),
        off + pos + 6 + packLen (buf.drop (off + pos)) + 2) := by
  rw [ParserIterNext.eq_def]
  simp only [dif_pos h, hfind]
  rw [if_neg h1, if_neg (not_not_intro h2), if_neg h3, if_neg h4, if_neg h5,
    if_neg (not_not_intro h6)]

/-- Cursor discipline of one `next` call: the cursor never moves backwards,
never exceeds `max off buf.length`, and whenever an outcome is yielded it
advanced by at least 2 and stayed within the store. -/
theorem next_cursor {R : Type} (mp : Nat → Nat → List Nat → R) (buf : List Nat) (off : Nat) :
    off ≤ (ParserIterNext mp buf off).2 ∧
    (ParserIterNext mp buf off).2 ≤ max off buf.length ∧
    ((ParserIterNext mp buf off).1.isSome = true →
      off + 2 ≤ (ParserIterNext mp buf off).2 ∧ (ParserIterNext mp buf off).2 ≤ buf.length) := by
  induction off using ParserIterNext.induct mp buf with
  | case1 off h hfind =>
    rw [next_noSync mp buf off h hfind]; simp
  | case2 off h pos hfind h1 =>
    rw [next_short1 mp buf off pos h hfind h1]; simp
  | case3 off h pos hfind h1 h2 ih =>
    rw [next_badsync2 mp buf off pos h hfind h1 h2]
    simp only [List.length_drop] at h1
    omega
  | case4 off h pos hfind h1 h2 h3 =>
    rw [next_short5 mp buf off pos h hfind h1 (not_not.mp h2) h3]; simp
  | case5 off h pos hfind h1 h2 h3 h4 ih =>
    rw [next_oversize mp buf off pos h hfind h1 (not_not.mp h2) h3 h4]
    simp only [List.length_drop] at h1
    omega
  | case6 off h pos hfind h1 h2 h3 h4 h5 =>
    rw [next_incomplete mp buf off pos h hfind h1 (not_not.mp h2) h3 h4 h5]; simp
  | case7 off h pos hfind h1 h2 h3 h4 h5 h6 =>
    rw [next_mismatch mp buf off pos h hfind h1 (not_not.mp h2) h3 h4 h5 h6]
    simp only [List.length_drop] at h5
    simp only [Option.isSome_some, forall_const]
    omega
  | case8 off h pos hfind h1 h2 h3 h4 h5 h6 =>
    rw [next_success mp buf off pos h hfind h1 (not_not.mp h2) h3 h4 h5 (not_not.mp h6)]
    simp only [List.length_drop] at h5
    simp only [Option.isSome_some, forall_const]
    omega
  | case9 off h =>
    rw [next_stop mp buf off (Nat.not_lt.mp h)]; simp

/-- Repeatedly call `ParserIterNext` until it yields no outcome, collecting
the outcomes in order; returns them together with the final cursor.  This is
how a caller drains the `ParserIter` returned by `consume`. -/
def drainFrom {R : Type} (mp : Nat → Nat → List Nat → R) (buf : List Nat) (off : Nat) :
    List (Outcome R) × Nat :=
  match h : ParserIterNext mp buf off with
  | (none, f) => ([], f)
  | (some o, f) =>
    let r := drainFrom mp buf f
    (o :: r.1, r.2)
termination_by buf.length + 1 - off
decreasing_by
  have hc := next_cursor mp buf off
  rw [h] at hc
  simp only [Option.isSome_some, forall_const] at hc
  omega

/-- `Parser::consume` (lines 182-211): absorb `new_data` into the byte
store.  Returns the new store contents together with the initial scan cursor
`off` of the returned `ParserIter`. -/
def parserConsume (buf new_data : List Nat) : List Nat × Nat :=
  match (buf ++ new_data).findIdx? (fun x => x == SYNC_CHAR_1) with
  | some off =>
    if buf.length ≤ off then (new_data.drop (off - buf.length), 0)
    else (buf ++ new_data, off)
  | none => ([], 0)

/-- `Drop for ParserIter` (lines 220-226): on release, the iterator drains
`0..off` from the store, guarded by `off <= buf.len()`. -/
def parserIterDrop (buf : List Nat) (off : Nat) : List Nat :=
  if off ≤ buf.length then buf.drop off else buf

/-- One full feed call: `consume` a chunk, drain the returned iterator, then
release it (running the `Drop` compaction exactly once).  Returns the
outcome sequence and the byte store left for the next call. -/
def feedChunk {R : Type} (mp : Nat → Nat → List Nat → R) (store chunk : List Nat) :
    List (Outcome R) × List Nat :=
  let c := parserConsume store chunk
  let r := drainFrom mp c.1 c.2
  (r.1, parserIterDrop c.1 r.2)

/-- Feed a list of chunks in order, concatenating the outcome sequences. -/
def feedAll {R : Type} (mp : Nat → Nat → List Nat → R) (store : List Nat) :
    List (List Nat) → List (Outcome R) × List Nat
  | [] => ([], store)
  | c :: cs =>
    let r := feedChunk mp store c
    let r2 := feedAll mp r.2 cs
    (r.1 ++ r2.1, r2.2)

/-- A complete wire frame: sync pair, class, id, little-endian length field,
payload, then the two given trailing checksum bytes. -/
def mkFrame (cls idb : Nat) (payload : List Nat) (cka ckb : Nat) : List Nat :=
  SYNC_CHAR_1 :: SYNC_CHAR_2 :: cls :: idb :: payload.length % 256 ::
    payload.length / 256 :: (payload ++ [cka, ckb])

/-- A well-formed frame: `mkFrame` with the correct checksum over the span
`class..last payload byte`. -/
def goodFrame (cls idb : Nat) (payload : List Nat) : List Nat :=
  mkFrame cls idb payload
    (ubx_checksum (cls :: idb :: payload.length % 256 :: payload.length / 256 :: payload)).1
    (ubx_checksum (cls :: idb :: payload.length % 256 :: payload.length / 256 :: payload)).2

/-! ### List helpers -/

theorem findIdx?_some_lt {l : List Nat} {p : Nat → Bool} {i : Nat}
    (h : l.findIdx? p = some i) : i < l.length := by
  rw [List.findIdx?_eq_some_iff_findIdx_eq] at h
  exact h.1

theorem getD_append_left {l r : List Nat} {i : Nat} (h : i < l.length) (d : Nat) :
    (l ++ r).getD i d = l.getD i d := by
  simp [List.getD_eq_getElem?_getD, List.getElem?_append_left h]

theorem noSync_findIdx? {l : List Nat} (h : SYNC_CHAR_1 ∉ l) :
    l.findIdx? (fun x => x == SYNC_CHAR_1) = none := by
  rw [List.findIdx?_eq_none_iff]
  intro x hx
  simp only [beq_eq_false_iff_ne, ne_eq]
  intro he
  exact h (he ▸ hx)

theorem findIdx?_none_noSync {l : List Nat}
    (h : l.findIdx? (fun x => x == SYNC_CHAR_1) = none) : SYNC_CHAR_1 ∉ l := by
  rw [List.findIdx?_eq_none_iff] at h
  intro hm
  have := h _ hm
  simp at this

/-- The scan from cursor `off` is the scan of the suffix `buf.drop off` from
cursor 0, with the final cursor shifted back by `off`. -/
theorem next_drop_shift {R : Type} (mp : Nat → Nat → List Nat → R) (buf : List Nat) (off : Nat) :
    ParserIterNext mp buf off =
      ((ParserIterNext mp (buf.drop off) 0).1,
        off + (ParserIterNext mp (buf.drop off) 0).2) := by
  have key : ∀ n buf (off : Nat), buf.length - off ≤ n →
      ParserIterNext mp buf off =
        ((ParserIterNext mp (buf.drop off) 0).1,
          off + (ParserIterNext mp (buf.drop off) 0).2) := by
    intro n
    induction n with
    | zero =>
      intro buf off hn
      have h1 : buf.length ≤ off := by omega
      have h2 : (buf.drop off).length ≤ 0 := by simp; omega
      rw [next_stop mp buf off h1, next_stop mp (buf.drop off) 0 (by omega)]
      simp
    | succ n ih =>
      intro buf off hn
      by_cases hlt : off < buf.length
      · have hlt0 : 0 < (buf.drop off).length := by simp; omega
        have hD0 : (buf.drop off).drop 0 = buf.drop off := List.drop_zero _
        cases hfind : (buf.drop off).findIdx? (fun x => x == SYNC_CHAR_1) with
        | none =>
          rw [next_noSync mp buf off hlt hfind,
            next_noSync mp (buf.drop off) 0 hlt0 (by rw [hD0]; exact hfind)]
          simp
        | some pos =>
          have hfind' : ((buf.drop off).drop 0).findIdx? (fun x => x == SYNC_CHAR_1) =
              some pos := by rw [hD0]; exact hfind
          have e1 : (buf.drop off).drop (0 + pos) = buf.drop (off + pos) := by
            rw [Nat.zero_add, List.drop_drop]
          by_cases g1 : (buf.drop (off + pos)).length ≤ 1
          · rw [next_short1 mp buf off pos hlt hfind g1,
              next_short1 mp (buf.drop off) 0 pos hlt0 hfind' (by rw [e1]; exact g1)]
            simp
          · by_cases g2 : (buf.drop (off + pos)).getD 1 0 = SYNC_CHAR_2
            · by_cases g3 : (buf.drop (off + pos)).length ≤ 5
              · rw [next_short5 mp buf off pos hlt hfind g1 g2 g3,
                  next_short5 mp (buf.drop off) 0 pos hlt0 hfind'
                    (by rw [e1]; exact g1) (by rw [e1]; exact g2) (by rw [e1]; exact g3)]
                simp
              · by_cases g4 : MAX_PAYLOAD_LEN < packLen (buf.drop (off + pos))
                · -- oversized length: both sides skip past the false match
                  rw [next_oversize mp buf off pos hlt hfind g1 g2 g3 g4,
                    next_oversize mp (buf.drop off) 0 pos hlt0 hfind'
                      (by rw [e1]; exact g1) (by rw [e1]; exact g2)
                      (by rw [e1]; exact g3) (by rw [e1]; exact g4)]
                  have m1 : buf.length - (off + pos + 2) ≤ n := by omega
                  have m2 : (buf.drop off).length - (0 + pos + 2) ≤ n := by simp; omega
                  rw [ih buf (off + pos + 2) m1, ih (buf.drop off) (0 + pos + 2) m2]
                  have e2 : (buf.drop off).drop (0 + pos + 2) = buf.drop (off + pos + 2) := by
                    rw [List.drop_drop]; ring_nf
                  rw [e2]
                  simp
                  omega
                · by_cases g5 : (buf.drop (off + pos)).length <
                      packLen (buf.drop (off + pos)) + 6 + 2
                  · rw [next_incomplete mp buf off pos hlt hfind g1 g2 g3 g4 g5,
                      next_incomplete mp (buf.drop off) 0 pos hlt0 hfind'
                        (by rw [e1]; exact g1) (by rw [e1]; exact g2)
                        (by rw [e1]; exact g3) (by rw [e1]; exact g4) (by rw [e1]; exact g5)]
                    simp
                  · by_cases g6 : ubx_checksum (((buf.drop (off + pos)).drop 2).take
                        (4 + packLen (buf.drop (off + pos)))) =
                        ((buf.drop (off + pos)).getD (6 + packLen (buf.drop (off + pos))) 0,
                         (buf.drop (off + pos)).getD
                           (6 + packLen (buf.drop (off + pos)) + 1) 0)
                    · rw [next_success mp buf off pos hlt hfind g1 g2 g3 g4 g5 g6,
                        next_success mp (buf.drop off) 0 pos hlt0 hfind'
                          (by rw [e1]; exact g1) (by rw [e1]; exact g2)
                          (by rw [e1]; exact g3) (by rw [e1]; exact g4)
                          (by rw [e1]; exact g5) (by rw [e1]; exact g6)]
                      rw [e1]
                      simp
                      omega
                    · rw [next_mismatch mp buf off pos hlt hfind g1 g2 g3 g4 g5 g6,
                        next_mismatch mp (buf.drop off) 0 pos hlt0 hfind'
                          (by rw [e1]; exact g1) (by rw [e1]; exact g2)
                          (by rw [e1]; exact g3) (by rw [e1]; exact g4)
                          (by rw [e1]; exact g5) (by rw [e1]; exact g6)]
                      rw [e1]
                      simp
                      omega
            · -- second marker byte missing: both sides skip past the false match
              rw [next_badsync2 mp buf off pos hlt hfind g1 g2,
                next_badsync2 mp (buf.drop off) 0 pos hlt0 hfind'
                  (by rw [e1]; exact g1) (by rw [e1]; exact g2)]
              have m1 : buf.length - (off + pos + 2) ≤ n := by omega
              have m2 : (buf.drop off).length - (0 + pos + 2) ≤ n := by simp; omega
              rw [ih buf (off + pos + 2) m1, ih (buf.drop off) (0 + pos + 2) m2]
              have e2 : (buf.drop off).drop (0 + pos + 2) = buf.drop (off + pos + 2) := by
                rw [List.drop_drop]; ring_nf
              rw [e2]
              simp
              omega
      · have h2 : (buf.drop off).length ≤ 0 := by simp; omega
        rw [next_stop mp buf off (by omega), next_stop mp (buf.drop off) 0 (by omega)]
        simp
  exact key (buf.length - off) buf off le_rfl

/-! ### Drain equations and cursor facts -/

theorem drain_none {R : Type} (mp : Nat → Nat → List Nat → R) (buf : List Nat) (off f : Nat)
    (h : ParserIterNext mp buf off = (none, f)) :
    drainFrom mp buf off = ([], f) := by
  rw [drainFrom.eq_def]
  split
  · next f' heq => rw [h] at heq; injection heq with h1 h2; simp_all
  · next o' f' heq => rw [h] at heq; injection heq with h1 h2; simp_all

theorem drain_some {R : Type} (mp : Nat → Nat → List Nat → R) (buf : List Nat) (off : Nat)
    (o : Outcome R) (f : Nat)
    (h : ParserIterNext mp buf off = (some o, f)) :
    drainFrom mp buf off = (o :: (drainFrom mp buf f).1, (drainFrom mp buf f).2) := by
  rw [drainFrom.eq_def]
  split
  · next f' heq => rw [h] at heq; injection heq with h1 h2; simp_all
  · next o' f' heq => rw [h] at heq; injection heq with h1 h2; simp_all

/-- The final cursor of a full drain never moves backwards and stays within
`max off buf.length`. -/
theorem drain_cursor {R : Type} (mp : Nat → Nat → List Nat → R) (buf : List Nat) (off : Nat) :
    off ≤ (drainFrom mp buf off).2 ∧ (drainFrom mp buf off).2 ≤ max off buf.length := by
  induction off using drainFrom.induct mp buf with
  | case1 off f heq =>
    rw [drain_none mp buf off f heq]
    have hc := next_cursor mp buf off
    rw [heq] at hc
    simp only [] at hc
    exact ⟨hc.1, hc.2.1⟩
  | case2 off o f heq ih =>
    rw [drain_some mp buf off o f heq]
    have hc := next_cursor mp buf off
    rw [heq] at hc
    simp only [Option.isSome_some, forall_const] at hc
    simp only []
    omega

/-- Scanning from cursor `k + j` is scanning the suffix `buf.drop k` from
cursor `j`, shifted back by `k`. -/
theorem next_shift_add {R : Type} (mp : Nat → Nat → List Nat → R) (buf : List Nat) (k j : Nat) :
    ParserIterNext mp buf (k + j) =
      ((ParserIterNext mp (buf.drop k) j).1, k + (ParserIterNext mp (buf.drop k) j).2) := by
  rw [next_drop_shift mp buf (k + j), next_drop_shift mp (buf.drop k) j, List.drop_drop]
  refine Prod.ext rfl ?_
  simp only []
  omega

/-- Draining from cursor `k + j` is draining the suffix `buf.drop k` from
cursor `j`, with the final cursor shifted back by `k`. -/
theorem drain_shift {R : Type} (mp : Nat → Nat → List Nat → R) (buf : List Nat) (k j : Nat) :
    drainFrom mp buf (k + j) =
      ((drainFrom mp (buf.drop k) j).1, k + (drainFrom mp (buf.drop k) j).2) := by
  have key : ∀ n j, buf.length + 1 - (k + j) ≤ n →
      drainFrom mp buf (k + j) =
        ((drainFrom mp (buf.drop k) j).1, k + (drainFrom mp (buf.drop k) j).2) := by
    intro n
    induction n with
    | zero =>
      intro j hn
      have hstop : buf.length ≤ k + j := by omega
      have hstop2 : (buf.drop k).length ≤ j := by simp; omega
      rw [drain_none mp buf (k + j) (k + j) (next_stop mp buf (k + j) hstop),
        drain_none mp (buf.drop k) j j (next_stop mp (buf.drop k) j hstop2)]
    | succ n ih =>
      intro j hn
      have hsh := next_shift_add mp buf k j
      cases hres : ParserIterNext mp (buf.drop k) j with
      | mk o f =>
        cases o with
        | none =>
          rw [hres] at hsh
          rw [drain_none mp buf (k + j) (k + f) hsh,
            drain_none mp (buf.drop k) j f hres]
        | some o =>
          rw [hres] at hsh
          have hc := next_cursor mp (buf.drop k) j
          rw [hres] at hc
          simp only [Option.isSome_some, forall_const, List.length_drop] at hc
          rw [drain_some mp buf (k + j) o (k + f) hsh,
            drain_some mp (buf.drop k) j o f hres]
          have := ih f (by omega)
          rw [this]
  exact key (buf.length + 1 - (k + j)) j le_rfl

/-! ### Appending more bytes to the store -/

theorem packLen_append {l c : List Nat} (h : 5 < l.length) :
    packLen (l ++ c) = packLen l := by
  unfold packLen
  rw [getD_append_left (by omega) 0, getD_append_left (by omega) 0]

/-- Effect of one scan step when more bytes are appended to the store.
A step that yielded an outcome yields the same outcome at the same cursor
(all its decisions read bytes that were already present); a step that
starved at cursor `f` behaves like a fresh scan of the retained suffix plus
the new bytes. -/
theorem next_append {R : Type} (mp : Nat → Nat → List Nat → R) (buf c : List Nat)
    (off : Nat) :
    off ≤ buf.length →
    (∀ o f, ParserIterNext mp buf off = (some o, f) →
        ParserIterNext mp (buf ++ c) off = (some o, f)) ∧
    (∀ f, ParserIterNext mp buf off = (none, f) →
        ParserIterNext mp (buf ++ c) off =
          ((ParserIterNext mp (buf.drop f ++ c) 0).1,
            f + (ParserIterNext mp (buf.drop f ++ c) 0).2)) := by
  induction off using ParserIterNext.induct mp buf with
  | case1 off h hfind =>
    intro hoff
    have heq := next_noSync mp buf off h hfind
    constructor
    · intro o f hsome
      rw [heq] at hsome
      exact absurd (congrArg Prod.fst hsome) (by simp)
    · intro f hnone
      rw [heq] at hnone
      injection hnone with _ h2
      subst h2
      rw [next_drop_shift mp (buf ++ c) off, List.drop_append_of_le_length hoff]
  | case2 off h pos hfind h1 =>
    intro hoff
    have heq := next_short1 mp buf off pos h hfind h1
    constructor
    · intro o f hsome
      rw [heq] at hsome
      exact absurd (congrArg Prod.fst hsome) (by simp)
    · intro f hnone
      rw [heq] at hnone
      injection hnone with _ h2
      subst h2
      rw [next_drop_shift mp (buf ++ c) off, List.drop_append_of_le_length hoff]
  | case3 off h pos hfind h1 h2 ih =>
    intro hoff
    have hpos : pos < (buf.drop off).length := findIdx?_some_lt hfind
    simp only [List.length_drop] at hpos
    have hmlen : 2 ≤ (buf.drop (off + pos)).length := by omega
    simp only [List.length_drop] at hmlen
    have hoff2 : off + pos + 2 ≤ buf.length := by omega
    have heq := next_badsync2 mp buf off pos h hfind h1 h2
    have hdapp : (buf ++ c).drop off = buf.drop off ++ c :=
      List.drop_append_of_le_length hoff
    have hmapp : (buf ++ c).drop (off + pos) = buf.drop (off + pos) ++ c :=
      List.drop_append_of_le_length (by omega)
    have hfind' : ((buf ++ c).drop off).findIdx? (fun x => x == SYNC_CHAR_1) = some pos := by
      rw [hdapp, List.findIdx?_append, hfind]
      rfl
    have h1' : ¬ ((buf ++ c).drop (off + pos)).length ≤ 1 := by
      rw [hmapp]
      simp only [List.length_append, List.length_drop]
      omega
    have h2' : ((buf ++ c).drop (off + pos)).getD 1 0 ≠ SYNC_CHAR_2 := by
      rw [hmapp, getD_append_left (by simp; omega) 0]
      exact h2
    have heq' := next_badsync2 mp (buf ++ c) off pos
      (by simp; omega) hfind' h1' h2'
    constructor
    · intro o f hsome
      rw [heq] at hsome
      rw [heq']
      exact (ih hoff2).1 o f hsome
    · intro f hnone
      rw [heq] at hnone
      rw [heq']
      exact (ih hoff2).2 f hnone
  | case4 off h pos hfind h1 h2 h3 =>
    intro hoff
    have heq := next_short5 mp buf off pos h hfind h1 (not_not.mp h2) h3
    constructor
    · intro o f hsome
      rw [heq] at hsome
      exact absurd (congrArg Prod.fst hsome) (by simp)
    · intro f hnone
      rw [heq] at hnone
      injection hnone with _ hf
      subst hf
      rw [next_drop_shift mp (buf ++ c) off, List.drop_append_of_le_length hoff]
  | case5 off h pos hfind h1 h2 h3 h4 ih =>
    intro hoff
    have hpos : pos < (buf.drop off).length := findIdx?_some_lt hfind
    simp only [List.length_drop] at hpos
    have hmlen : 6 ≤ (buf.drop (off + pos)).length := by
      simp only [List.length_drop] at h3 ⊢
      omega
    simp only [List.length_drop] at hmlen
    have hoff2 : off + pos + 2 ≤ buf.length := by omega
    have heq := next_oversize mp buf off pos h hfind h1 (not_not.mp h2) h3 h4
    have hdapp : (buf ++ c).drop off = buf.drop off ++ c :=
      List.drop_append_of_le_length hoff
    have hmapp : (buf ++ c).drop (off + pos) = buf.drop (off + pos) ++ c :=
      List.drop_append_of_le_length (by omega)
    have hfind' : ((buf ++ c).drop off).findIdx? (fun x => x == SYNC_CHAR_1) = some pos := by
      rw [hdapp, List.findIdx?_append, hfind]
      rfl
    have h1' : ¬ ((buf ++ c).drop (off + pos)).length ≤ 1 := by
      rw [hmapp]
      simp only [List.length_append, List.length_drop]
      omega
    have h2' : ((buf ++ c).drop (off + pos)).getD 1 0 = SYNC_CHAR_2 := by
      rw [hmapp, getD_append_left (by simp; omega) 0]
      exact not_not.mp h2
    have h3' : ¬ ((buf ++ c).drop (off + pos)).length ≤ 5 := by
      rw [hmapp]
      simp only [List.length_append, List.length_drop]
      simp only [List.length_drop] at h3
      omega
    have h4' : MAX_PAYLOAD_LEN < packLen ((buf ++ c).drop (off + pos)) := by
      rw [hmapp, packLen_append (by omega)]
      exact h4
    have heq' := next_oversize mp (buf ++ c) off pos
      (by simp; omega) hfind' h1' h2' h3' h4'
    constructor
    · intro o f hsome
      rw [heq] at hsome
      rw [heq']
      exact (ih hoff2).1 o f hsome
    · intro f hnone
      rw [heq] at hnone
      rw [heq']
      exact (ih hoff2).2 f hnone
  | case6 off h pos hfind h1 h2 h3 h4 h5 =>
    intro hoff
    have heq := next_incomplete mp buf off pos h hfind h1 (not_not.mp h2) h3 h4 h5
    constructor
    · intro o f hsome
      rw [heq] at hsome
      exact absurd (congrArg Prod.fst hsome) (by simp)
    · intro f hnone
      rw [heq] at hnone
      injection hnone with _ hf
      subst hf
      rw [next_drop_shift mp (buf ++ c) off, List.drop_append_of_le_length hoff]
  | case7 off h pos hfind h1 h2 h3 h4 h5 h6 =>
    intro hoff
    have hpos : pos < (buf.drop off).length := findIdx?_some_lt hfind
    simp only [List.length_drop] at hpos
    have hfull : packLen (buf.drop (off + pos)) + 8 ≤ (buf.drop (off + pos)).length := by
      omega
    have hdapp : (buf ++ c).drop off = buf.drop off ++ c :=
      List.drop_append_of_le_length hoff
    have hmapp : (buf ++ c).drop (off + pos) = buf.drop (off + pos) ++ c :=
      List.drop_append_of_le_length (by omega)
    have hfind' : ((buf ++ c).drop off).findIdx? (fun x => x == SYNC_CHAR_1) = some pos := by
      rw [hdapp, List.findIdx?_append, hfind]
      rfl
    have h1' : ¬ ((buf ++ c).drop (off + pos)).length ≤ 1 := by
      rw [hmapp]
      simp only [List.length_append]
      omega
    have h2' : ((buf ++ c).drop (off + pos)).getD 1 0 = SYNC_CHAR_2 := by
      rw [hmapp, getD_append_left (by omega) 0]
      exact not_not.mp h2
    have h3' : ¬ ((buf ++ c).drop (off + pos)).length ≤ 5 := by
      rw [hmapp]
      simp only [List.length_append]
      omega
    have hplen' : packLen ((buf ++ c).drop (off + pos)) = packLen (buf.drop (off + pos)) := by
      rw [hmapp, packLen_append (by omega)]
    have h4' : ¬ MAX_PAYLOAD_LEN < packLen ((buf ++ c).drop (off + pos)) := by
      rw [hplen']
      exact h4
    have h5' : ¬ ((buf ++ c).drop (off + pos)).length <
        packLen ((buf ++ c).drop (off + pos)) + 6 + 2 := by
      rw [hplen', hmapp]
      simp only [List.length_append]
      omega
    have hL2 : ((buf.drop (off + pos)).drop 2).length =
        (buf.drop (off + pos)).length - 2 := by
      rw [List.length_drop]
    have hspan : (((buf ++ c).drop (off + pos)).drop 2).take
        (4 + packLen ((buf ++ c).drop (off + pos))) =
        ((buf.drop (off + pos)).drop 2).take (4 + packLen (buf.drop (off + pos))) := by
      rw [hplen', hmapp, List.drop_append_of_le_length (by omega),
        List.take_append_of_le_length (by rw [hL2]; omega)]
    have hgd6 : ((buf ++ c).drop (off + pos)).getD
        (6 + packLen ((buf ++ c).drop (off + pos))) 0 =
        (buf.drop (off + pos)).getD (6 + packLen (buf.drop (off + pos))) 0 := by
      rw [hplen', hmapp, getD_append_left (by omega) 0]
    have hgd7 : ((buf ++ c).drop (off + pos)).getD
        (6 + packLen ((buf ++ c).drop (off + pos)) + 1) 0 =
        (buf.drop (off + pos)).getD (6 + packLen (buf.drop (off + pos)) + 1) 0 := by
      rw [hplen', hmapp, getD_append_left (by omega) 0]
    have h6' : ubx_checksum ((((buf ++ c).drop (off + pos)).drop 2).take
          (4 + packLen ((buf ++ c).drop (off + pos)))) ≠
        (((buf ++ c).drop (off + pos)).getD
            (6 + packLen ((buf ++ c).drop (off + pos))) 0,
          ((buf ++ c).drop (off + pos)).getD
            (6 + packLen ((buf ++ c).drop (off + pos)) + 1) 0) := by
      rw [hspan, hgd6, hgd7]
      exact h6
    have heq := next_mismatch mp buf off pos h hfind h1 (not_not.mp h2) h3 h4 h5 h6
    have heq' := next_mismatch mp (buf ++ c) off pos
      (by simp; omega) hfind' h1' h2' h3' h4' h5' h6'
    rw [hspan, hgd6, hgd7] at heq'
    constructor
    · intro o f hsome
      rw [heq] at hsome
      injection hsome with ho hf
      rw [heq', ho, hf]
    · intro f hnone
      rw [heq] at hnone
      exact absurd (congrArg Prod.fst hnone) (by simp)
  | case8 off h pos hfind h1 h2 h3 h4 h5 h6 =>
    intro hoff
    have hpos : pos < (buf.drop off).length := findIdx?_some_lt hfind
    simp only [List.length_drop] at hpos
    have hfull : packLen (buf.drop (off + pos)) + 8 ≤ (buf.drop (off + pos)).length := by
      omega
    have hdapp : (buf ++ c).drop off = buf.drop off ++ c :=
      List.drop_append_of_le_length hoff
    have hmapp : (buf ++ c).drop (off + pos) = buf.drop (off + pos) ++ c :=
      List.drop_append_of_le_length (by omega)
    have hfind' : ((buf ++ c).drop off).findIdx? (fun x => x == SYNC_CHAR_1) = some pos := by
      rw [hdapp, List.findIdx?_append, hfind]
      rfl
    have h1' : ¬ ((buf ++ c).drop (off + pos)).length ≤ 1 := by
      rw [hmapp]
      simp only [List.length_append]
      omega
    have h2' : ((buf ++ c).drop (off + pos)).getD 1 0 = SYNC_CHAR_2 := by
      rw [hmapp, getD_append_left (by omega) 0]
      exact not_not.mp h2
    have h3' : ¬ ((buf ++ c).drop (off + pos)).length ≤ 5 := by
      rw [hmapp]
      simp only [List.length_append]
      omega
    have hplen' : packLen ((buf ++ c).drop (off + pos)) = packLen (buf.drop (off + pos)) := by
      rw [hmapp, packLen_append (by omega)]
    have h4' : ¬ MAX_PAYLOAD_LEN < packLen ((buf ++ c).drop (off + pos)) := by
      rw [hplen']
      exact h4
    have h5' : ¬ ((buf ++ c).drop (off + pos)).length <
        packLen ((buf ++ c).drop (off + pos)) + 6 + 2 := by
      rw [hplen', hmapp]
      simp only [List.length_append]
      omega
    have hL2 : ((buf.drop (off + pos)).drop 2).length =
        (buf.drop (off + pos)).length - 2 := by
      rw [List.length_drop]
    have hspan : (((buf ++ c).drop (off + pos)).drop 2).take
        (4 + packLen ((buf ++ c).drop (off + pos))) =
        ((buf.drop (off + pos)).drop 2).take (4 + packLen (buf.drop (off + pos))) := by
      rw [hplen', hmapp, List.drop_append_of_le_length (by omega),
        List.take_append_of_le_length (by rw [hL2]; omega)]
    have hgd6 : ((buf ++ c).drop (off + pos)).getD
        (6 + packLen ((buf ++ c).drop (off + pos))) 0 =
        (buf.drop (off + pos)).getD (6 + packLen (buf.drop (off + pos))) 0 := by
      rw [hplen', hmapp, getD_append_left (by omega) 0]
    have hgd7 : ((buf ++ c).drop (off + pos)).getD
        (6 + packLen ((buf ++ c).drop (off + pos)) + 1) 0 =
        (buf.drop (off + pos)).getD (6 + packLen (buf.drop (off + pos)) + 1) 0 := by
      rw [hplen', hmapp, getD_append_left (by omega) 0]
    have h6' : ubx_checksum ((((buf ++ c).drop (off + pos)).drop 2).take
          (4 + packLen ((buf ++ c).drop (off + pos)))) =
        (((buf ++ c).drop (off + pos)).getD
            (6 + packLen ((buf ++ c).drop (off + pos))) 0,
          ((buf ++ c).drop (off + pos)).getD
            (6 + packLen ((buf ++ c).drop (off + pos)) + 1) 0) := by
      rw [hspan, hgd6, hgd7]
      exact not_not.mp h6
    have hgd2 : ((buf ++ c).drop (off + pos)).getD 2 0 =
        (buf.drop (off + pos)).getD 2 0 := by
      rw [hmapp, getD_append_left (by omega) 0]
    have hgd3 : ((buf ++ c).drop (off + pos)).getD 3 0 =
        (buf.drop (off + pos)).getD 3 0 := by
      rw [hmapp, getD_append_left (by omega) 0]
    have hL6 : ((buf.drop (off + pos)).drop 6).length =
        (buf.drop (off + pos)).length - 6 := by
      rw [List.length_drop]
    have hmsg : (((buf ++ c).drop (off + pos)).drop 6).take
        (packLen ((buf ++ c).drop (off + pos))) =
        ((buf.drop (off + pos)).drop 6).take (packLen (buf.drop (off + pos))) := by
      rw [hplen', hmapp, List.drop_append_of_le_length (by omega),
        List.take_append_of_le_length (by rw [hL6]; omega)]
    have heq := next_success mp buf off pos h hfind h1 (not_not.mp h2) h3 h4 h5
      (not_not.mp h6)
    have heq' := next_success mp (buf ++ c) off pos
      (by simp; omega) hfind' h1' h2' h3' h4' h5' h6'
    rw [hgd2, hgd3, hmsg, hplen'] at heq'
    constructor
    · intro o f hsome
      rw [heq] at hsome
      injection hsome with ho hf
      rw [heq', ho, hf]
    · intro f hnone
      rw [heq] at hnone
      exact absurd (congrArg Prod.fst hnone) (by simp)
  | case9 off h =>
    intro hoff
    have heq := next_stop mp buf off (by omega)
    constructor
    · intro o f hsome
      rw [heq] at hsome
      exact absurd (congrArg Prod.fst hsome) (by simp)
    · intro f hnone
      rw [heq] at hnone
      injection hnone with _ hf
      subst hf
      rw [next_drop_shift mp (buf ++ c) off, List.drop_append_of_le_length hoff]

/-- Draining `buf ++ c` from a cursor inside `buf` yields first exactly the
outcomes of draining `buf`, then the outcomes of a fresh drain of the
retained suffix of `buf` followed by `c`. -/
theorem drain_append {R : Type} (mp : Nat → Nat → List Nat → R) (buf c : List Nat)
    (off : Nat) (hoff : off ≤ buf.length) :
    drainFrom mp (buf ++ c) off =
      ((drainFrom mp buf off).1 ++
         (drainFrom mp (buf.drop (drainFrom mp buf off).2 ++ c) 0).1,
       (drainFrom mp buf off).2 +
         (drainFrom mp (buf.drop (drainFrom mp buf off).2 ++ c) 0).2) := by
  have key : ∀ n off, off ≤ buf.length → buf.length + 1 - off ≤ n →
      drainFrom mp (buf ++ c) off =
        ((drainFrom mp buf off).1 ++
           (drainFrom mp (buf.drop (drainFrom mp buf off).2 ++ c) 0).1,
         (drainFrom mp buf off).2 +
           (drainFrom mp (buf.drop (drainFrom mp buf off).2 ++ c) 0).2) := by
    intro n
    induction n with
    | zero => intro off hoff hn; omega
    | succ n ih =>
      intro off hoff hn
      cases hres : ParserIterNext mp buf off with
      | mk o f =>
        cases o with
        | none =>
          have hf : f ≤ buf.length := by
            have hc := next_cursor mp buf off
            rw [hres] at hc
            simp only [] at hc
            omega
          have hr1 : drainFrom mp buf off = ([], f) := drain_none mp buf off f hres
          have hext := (next_append mp buf c off hoff).2 f hres
          rw [hr1]
          simp only []
          cases hn0 : ParserIterNext mp (buf.drop f ++ c) 0 with
          | mk o0 g =>
            cases o0 with
            | none =>
              rw [hn0] at hext
              simp only [] at hext
              rw [drain_none mp (buf ++ c) off (f + g) hext,
                drain_none mp (buf.drop f ++ c) 0 g hn0]
              simp
            | some o =>
              rw [hn0] at hext
              simp only [] at hext
              rw [drain_some mp (buf ++ c) off o (f + g) hext,
                drain_some mp (buf.drop f ++ c) 0 o g hn0]
              have hsh := drain_shift mp (buf ++ c) f g
              rw [List.drop_append_of_le_length hf] at hsh
              rw [hsh]
              simp
        | some o =>
          have hc := next_cursor mp buf off
          rw [hres] at hc
          simp only [Option.isSome_some, forall_const] at hc
          have hf : f ≤ buf.length := hc.2.2.2
          have hr1 : drainFrom mp buf off =
              (o :: (drainFrom mp buf f).1, (drainFrom mp buf f).2) :=
            drain_some mp buf off o f hres
          have hext := (next_append mp buf c off hoff).1 o f hres
          have hr2 : drainFrom mp (buf ++ c) off =
              (o :: (drainFrom mp (buf ++ c) f).1, (drainFrom mp (buf ++ c) f).2) :=
            drain_some mp (buf ++ c) off o f hext
          rw [hr2, ih f hf (by omega), hr1]
          simp
  exact key (buf.length + 1 - off) off hoff le_rfl

/-! ### Leading noise before the first marker -/

/-- A scan of `n ++ e` with `n` free of marker bytes behaves like the scan
of `e`: either both starve immediately without moving the cursor, or the
`n ++ e` scan returns the same outcome with its cursor shifted by
`n.length`. -/
theorem next_strip {R : Type} (mp : Nat → Nat → List Nat → R) (n e : List Nat)
    (hn : SYNC_CHAR_1 ∉ n) :
    (ParserIterNext mp e 0 = (none, 0) ∧ ParserIterNext mp (n ++ e) 0 = (none, 0)) ∨
    ParserIterNext mp (n ++ e) 0 =
      ((ParserIterNext mp e 0).1, n.length + (ParserIterNext mp e 0).2) := by
  rcases Nat.eq_zero_or_pos e.length with he | he
  · left
    have he' : e = [] := List.length_eq_zero.mp he
    subst he'
    constructor
    · exact next_stop mp [] 0 (by simp)
    · rcases Nat.eq_zero_or_pos (n ++ ([] : List Nat)).length with h0 | h0
      · exact next_stop mp (n ++ []) 0 (by omega)
      · exact next_noSync mp (n ++ []) 0 h0
          (by rw [List.drop_zero]; exact noSync_findIdx? (by simpa using hn))
  · cases hfe : e.findIdx? (fun x => x == SYNC_CHAR_1) with
    | none =>
      left
      have hne : SYNC_CHAR_1 ∉ n ++ e := by
        intro hm
        rcases List.mem_append.mp hm with h | h
        · exact hn h
        · exact findIdx?_none_noSync hfe h
      constructor
      · exact next_noSync mp e 0 he (by rw [List.drop_zero]; exact hfe)
      · exact next_noSync mp (n ++ e) 0 (by simp; omega)
          (by rw [List.drop_zero]; exact noSync_findIdx? hne)
    | some pos =>
      have hpos : pos < e.length := findIdx?_some_lt hfe
      have hfe0 : (e.drop 0).findIdx? (fun x => x == SYNC_CHAR_1) = some pos := by
        rw [List.drop_zero]; exact hfe
      have hfne : ((n ++ e).drop 0).findIdx? (fun x => x == SYNC_CHAR_1) =
          some (pos + n.length) := by
        rw [List.drop_zero, List.findIdx?_append, noSync_findIdx? hn, hfe]
        rfl
      have hmpk : (n ++ e).drop (0 + (pos + n.length)) = e.drop (0 + pos) := by
        rw [Nat.zero_add, Nat.zero_add, Nat.add_comm pos, List.drop_append]
      have hlen : 0 < (n ++ e).length := by simp; omega
      by_cases g1 : (e.drop (0 + pos)).length ≤ 1
      · left
        exact ⟨next_short1 mp e 0 pos he hfe0 g1,
          next_short1 mp (n ++ e) 0 (pos + n.length) hlen hfne (by rw [hmpk]; exact g1)⟩
      · by_cases g2 : (e.drop (0 + pos)).getD 1 0 = SYNC_CHAR_2
        · by_cases g3 : (e.drop (0 + pos)).length ≤ 5
          · left
            exact ⟨next_short5 mp e 0 pos he hfe0 g1 g2 g3,
              next_short5 mp (n ++ e) 0 (pos + n.length) hlen hfne
                (by rw [hmpk]; exact g1) (by rw [hmpk]; exact g2) (by rw [hmpk]; exact g3)⟩
          · by_cases g4 : MAX_PAYLOAD_LEN < packLen (e.drop (0 + pos))
            · right
              rw [next_oversize mp e 0 pos he hfe0 g1 g2 g3 g4,
                next_oversize mp (n ++ e) 0 (pos + n.length) hlen hfne
                  (by rw [hmpk]; exact g1) (by rw [hmpk]; exact g2)
                  (by rw [hmpk]; exact g3) (by rw [hmpk]; exact g4)]
              rw [next_drop_shift mp e (0 + pos + 2),
                next_drop_shift mp (n ++ e) (0 + (pos + n.length) + 2)]
              have hdd : (n ++ e).drop (0 + (pos + n.length) + 2) = e.drop (0 + pos + 2) := by
                have : 0 + (pos + n.length) + 2 = n.length + (0 + pos + 2) := by omega
                rw [this, List.drop_append]
              rw [hdd]
              refine Prod.ext rfl ?_
              simp only []
              omega
            · by_cases g5 : (e.drop (0 + pos)).length < packLen (e.drop (0 + pos)) + 6 + 2
              · left
                exact ⟨next_incomplete mp e 0 pos he hfe0 g1 g2 g3 g4 g5,
                  next_incomplete mp (n ++ e) 0 (pos + n.length) hlen hfne
                    (by rw [hmpk]; exact g1) (by rw [hmpk]; exact g2)
                    (by rw [hmpk]; exact g3) (by rw [hmpk]; exact g4)
                    (by rw [hmpk]; exact g5)⟩
              · by_cases g6 : ubx_checksum (((e.drop (0 + pos)).drop 2).take
                    (4 + packLen (e.drop (0 + pos)))) =
                    ((e.drop (0 + pos)).getD (6 + packLen (e.drop (0 + pos))) 0,
                     (e.drop (0 + pos)).getD (6 + packLen (e.drop (0 + pos)) + 1) 0)
                · right
                  rw [next_success mp e 0 pos he hfe0 g1 g2 g3 g4 g5 g6,
                    next_success mp (n ++ e) 0 (pos + n.length) hlen hfne
                      (by rw [hmpk]; exact g1) (by rw [hmpk]; exact g2)
                      (by rw [hmpk]; exact g3) (by rw [hmpk]; exact g4)
                      (by rw [hmpk]; exact g5) (by rw [hmpk]; exact g6)]
                  rw [hmpk]
                  refine Prod.ext rfl ?_
                  simp only []
                  omega
                · right
                  rw [next_mismatch mp e 0 pos he hfe0 g1 g2 g3 g4 g5 g6,
                    next_mismatch mp (n ++ e) 0 (pos + n.length) hlen hfne
                      (by rw [hmpk]; exact g1) (by rw [hmpk]; exact g2)
                      (by rw [hmpk]; exact g3) (by rw [hmpk]; exact g4)
                      (by rw [hmpk]; exact g5) (by rw [hmpk]; exact g6)]
                  rw [hmpk]
                  refine Prod.ext rfl ?_
                  simp only []
                  omega
        · right
          rw [next_badsync2 mp e 0 pos he hfe0 g1 g2,
            next_badsync2 mp (n ++ e) 0 (pos + n.length) hlen hfne
              (by rw [hmpk]; exact g1) (by rw [hmpk]; exact g2)]
          rw [next_drop_shift mp e (0 + pos + 2),
            next_drop_shift mp (n ++ e) (0 + (pos + n.length) + 2)]
          have hdd : (n ++ e).drop (0 + (pos + n.length) + 2) = e.drop (0 + pos + 2) := by
            have : 0 + (pos + n.length) + 2 = n.length + (0 + pos + 2) := by omega
            rw [this, List.drop_append]
          rw [hdd]
          refine Prod.ext rfl ?_
          simp only []
          omega

/-- Draining a store with marker-free leading noise yields exactly the
outcomes of draining the part from the first marker on. -/
theorem drain_strip {R : Type} (mp : Nat → Nat → List Nat → R) (n e : List Nat)
    (hn : SYNC_CHAR_1 ∉ n) :
    (drainFrom mp (n ++ e) 0).1 = (drainFrom mp e 0).1 := by
  rcases next_strip mp n e hn with ⟨he, hne⟩ | heq
  · rw [drain_none mp (n ++ e) 0 0 hne, drain_none mp e 0 0 he]
  · cases hres : ParserIterNext mp e 0 with
    | mk o f =>
      rw [hres] at heq
      cases o with
      | none =>
        rw [drain_none mp (n ++ e) 0 (n.length + f) heq, drain_none mp e 0 f hres]
      | some o =>
        rw [drain_some mp (n ++ e) 0 o (n.length + f) heq, drain_some mp e 0 o f hres]
        have hsh := drain_shift mp (n ++ e) n.length f
        rw [List.drop_left] at hsh
        rw [hsh]

/-! ### `Parser::consume` branch equations -/

theorem consume_none {buf c : List Nat}
    (h : (buf ++ c).findIdx? (fun x => x == SYNC_CHAR_1) = none) :
    parserConsume buf c = ([], 0) := by
  unfold parserConsume
  simp only [h]

theorem consume_inchunk {buf c : List Nat} {q : Nat}
    (h : (buf ++ c).findIdx? (fun x => x == SYNC_CHAR_1) = some q)
    (hq : buf.length ≤ q) :
    parserConsume buf c = (c.drop (q - buf.length), 0) := by
  unfold parserConsume
  simp only [h]
  rw [if_pos hq]

theorem consume_instore {buf c : List Nat} {q : Nat}
    (h : (buf ++ c).findIdx? (fun x => x == SYNC_CHAR_1) = some q)
    (hq : q < buf.length) :
    parserConsume buf c = (buf ++ c, q) := by
  unfold parserConsume
  simp only [h]
  rw [if_neg (by omega)]

/-- Everything before the first marker position is marker-free. -/
theorem noSync_take_findIdx {l : List Nat} {q : Nat}
    (h : l.findIdx? (fun x => x == SYNC_CHAR_1) = some q) : SYNC_CHAR_1 ∉ l.take q := by
  rw [List.findIdx?_eq_some_iff_getElem] at h
  obtain ⟨hlt, _, hmin⟩ := h
  intro hmem
  obtain ⟨j, hj, hval⟩ := List.mem_iff_getElem.mp hmem
  have hjq : j < q := by
    have := hj
    simp [List.length_take] at this
    omega
  have hjl : j < l.length := by omega
  have : (l.take q)[j] = l[j] := List.getElem_take _
  rw [this] at hval
  have := hmin j hjq
  simp [hval] at this

theorem drain_nil {R : Type} (mp : Nat → Nat → List Nat → R) :
    drainFrom mp [] 0 = ([], 0) :=
  drain_none mp [] 0 0 (next_stop mp [] 0 (by simp))

theorem feedChunk_eq {R : Type} (mp : Nat → Nat → List Nat → R) (S c : List Nat) :
    feedChunk mp S c =
      ((drainFrom mp (parserConsume S c).1 (parserConsume S c).2).1,
        parserIterDrop (parserConsume S c).1
          (drainFrom mp (parserConsume S c).1 (parserConsume S c).2).2) := rfl

/-- The outcomes of one feed call equal the outcomes of a fresh drain of
the whole pending byte sequence: the absorption policy of `consume` only
removes marker-free noise the scan would skip anyway. -/
theorem feed_eq_drain {R : Type} (mp : Nat → Nat → List Nat → R) (T c : List Nat) :
    (feedChunk mp T c).1 = (drainFrom mp (T ++ c) 0).1 := by
  cases hq : (T ++ c).findIdx? (fun x => x == SYNC_CHAR_1) with
  | none =>
    rw [feedChunk_eq, consume_none hq]
    simp only [drain_nil]
    rcases Nat.eq_zero_or_pos (T ++ c).length with h0 | h0
    · rw [drain_none mp (T ++ c) 0 0 (next_stop mp (T ++ c) 0 (by omega))]
    · rw [drain_none mp (T ++ c) 0 0
        (next_noSync mp (T ++ c) 0 h0 (by rw [List.drop_zero]; exact hq))]
  | some q =>
    have hql : q < (T ++ c).length := findIdx?_some_lt hq
    have hn : SYNC_CHAR_1 ∉ (T ++ c).take q := noSync_take_findIdx hq
    have hlen : ((T ++ c).take q).length = q := List.length_take_of_le (by omega)
    have hsplit : (T ++ c).take q ++ (T ++ c).drop q = T ++ c := List.take_append_drop q _
    have hstrip : (drainFrom mp (T ++ c) 0).1 =
        (drainFrom mp ((T ++ c).drop q) 0).1 := by
      conv_lhs => rw [← hsplit]
      exact drain_strip mp _ _ hn
    by_cases hq2 : T.length ≤ q
    · rw [feedChunk_eq, consume_inchunk hq hq2]
      simp only []
      have he : (T ++ c).drop q = c.drop (q - T.length) := by
        rw [List.drop_append_eq_append_drop, List.drop_eq_nil_of_le (by omega),
          List.nil_append]
      rw [hstrip, he]
    · rw [feedChunk_eq, consume_instore hq (by omega)]
      simp only []
      have hsh := drain_shift mp (T ++ c) q 0
      rw [Nat.add_zero] at hsh
      rw [hsh, hstrip]

theorem parserIterDrop_of_le {buf : List Nat} {off : Nat} (h : off ≤ buf.length) :
    parserIterDrop buf off = buf.drop off := by
  unfold parserIterDrop
  rw [if_pos h]

/-- Feeding `c1 ++ c2` in one call yields the same outcome sequence as
feeding `c1` and then `c2`. -/
theorem feed_split {R : Type} (mp : Nat → Nat → List Nat → R) (S c1 c2 : List Nat) :
    (feedChunk mp S (c1 ++ c2)).1 =
      (feedChunk mp S c1).1 ++ (feedChunk mp (feedChunk mp S c1).2 c2).1 := by
  have hassoc : S ++ (c1 ++ c2) = (S ++ c1) ++ c2 := (List.append_assoc S c1 c2).symm
  cases hq : (S ++ c1).findIdx? (fun x => x == SYNC_CHAR_1) with
  | some q =>
    have hql : q < (S ++ c1).length := findIdx?_some_lt hq
    have hQ : (S ++ (c1 ++ c2)).findIdx? (fun x => x == SYNC_CHAR_1) = some q := by
      rw [hassoc, List.findIdx?_append, hq]
      rfl
    by_cases hq2 : S.length ≤ q
    · -- marker only within c1: the old store is discarded
      have hq2' : q - S.length < c1.length := by
        simp only [List.length_append] at hql
        omega
      have hB : (c1 ++ c2).drop (q - S.length) = c1.drop (q - S.length) ++ c2 :=
        List.drop_append_of_le_length (by omega)
      have hc1 : parserConsume S c1 = (c1.drop (q - S.length), 0) :=
        consume_inchunk hq hq2
      have hc12 : parserConsume S (c1 ++ c2) = (c1.drop (q - S.length) ++ c2, 0) := by
        rw [consume_inchunk hQ hq2, hB]
      have hf : (drainFrom mp (c1.drop (q - S.length)) 0).2 ≤
          (c1.drop (q - S.length)).length := by
        have := drain_cursor mp (c1.drop (q - S.length)) 0
        omega
      rw [feedChunk_eq mp S (c1 ++ c2), hc12]
      rw [feedChunk_eq mp S c1, hc1]
      simp only []
      rw [drain_append mp (c1.drop (q - S.length)) c2 0 (by omega)]
      rw [parserIterDrop_of_le hf]
      rw [feed_eq_drain mp ((c1.drop (q - S.length)).drop
        (drainFrom mp (c1.drop (q - S.length)) 0).2) c2]
    · -- marker within the buffered bytes: the chunk is appended in full
      have hq2' : q < S.length := by omega
      have hc1 : parserConsume S c1 = (S ++ c1, q) := consume_instore hq hq2'
      have hc12 : parserConsume S (c1 ++ c2) = ((S ++ c1) ++ c2, q) := by
        rw [show parserConsume S (c1 ++ c2) =
            parserConsume S (c1 ++ c2) from rfl]
        rw [consume_instore hQ (by omega), hassoc]
      have hf : (drainFrom mp (S ++ c1) q).2 ≤ (S ++ c1).length := by
        have := drain_cursor mp (S ++ c1) q
        omega
      rw [feedChunk_eq mp S (c1 ++ c2), hc12]
      rw [feedChunk_eq mp S c1, hc1]
      simp only []
      rw [drain_append mp (S ++ c1) c2 q (by omega)]
      rw [parserIterDrop_of_le hf]
      rw [feed_eq_drain mp ((S ++ c1).drop (drainFrom mp (S ++ c1) q).2) c2]
  | none =>
    have hsplit1 : feedChunk mp S c1 = ([], []) := by
      rw [feedChunk_eq, consume_none hq]
      simp only [drain_nil]
      rfl
    rw [hsplit1]
    simp only [List.nil_append]
    cases hfc2 : c2.findIdx? (fun x => x == SYNC_CHAR_1) with
    | some j =>
      have hjl : j < c2.length := findIdx?_some_lt hfc2
      have hQ : (S ++ (c1 ++ c2)).findIdx? (fun x => x == SYNC_CHAR_1) =
          some (j + (S ++ c1).length) := by
        rw [hassoc, List.findIdx?_append, hq, hfc2]
        rfl
      have hc12 : parserConsume S (c1 ++ c2) = (c2.drop j, 0) := by
        rw [consume_inchunk hQ (by simp; omega)]
        have : j + (S ++ c1).length - S.length = c1.length + j := by
          simp only [List.length_append]
          omega
        rw [this, List.drop_append]
      have hc2 : parserConsume ([] : List Nat) c2 = (c2.drop j, 0) := by
        have h0 : (([] : List Nat) ++ c2).findIdx? (fun x => x == SYNC_CHAR_1) = some j := by
          rw [List.nil_append]
          exact hfc2
        rw [consume_inchunk h0 (by simp)]
        simp
      rw [feedChunk_eq mp S (c1 ++ c2), hc12, feedChunk_eq mp [] c2, hc2]
    | none =>
      have hQ : (S ++ (c1 ++ c2)).findIdx? (fun x => x == SYNC_CHAR_1) = none := by
        rw [hassoc, List.findIdx?_append, hq, hfc2]
        rfl
      have hc2 : parserConsume ([] : List Nat) c2 = ([], 0) :=
        consume_none (by rw [List.nil_append]; exact hfc2)
      rw [feedChunk_eq mp S (c1 ++ c2), consume_none hQ, feedChunk_eq mp [] c2, hc2]

theorem feedAll_eq_feedChunk {R : Type} (mp : Nat → Nat → List Nat → R) :
    ∀ (cs : List (List Nat)) (S c : List Nat),
    (feedAll mp S (c :: cs)).1 = (feedChunk mp S (c ++ cs.flatten)).1 := by
  intro cs
  induction cs with
  | nil =>
    intro S c
    simp [feedAll]
  | cons c' cs ih =>
    intro S c
    have hall : (feedAll mp S (c :: c' :: cs)).1 =
        (feedChunk mp S c).1 ++ (feedAll mp (feedChunk mp S c).2 (c' :: cs)).1 := by
      simp [feedAll]
    rw [hall, ih (feedChunk mp S c).2 c', ← feed_split mp S c (c' ++ cs.flatten)]
    rw [show (c' :: cs).flatten = c' ++ cs.flatten from rfl]

/-- C1: for every byte stream and every way of splitting it into chunks,
feeding the chunks to `Parser::consume` in order and draining each returned
`ParserIter` produces the same ordered sequence of outcomes (decoded
packets, checksum-mismatch errors, dispatch errors) as feeding the whole
stream in a single `consume` call. -/
theorem claim_C1_chunk_independence {R : Type} (mp : Nat → Nat → List Nat → R)
    (chunks : List (List Nat)) :
    (feedAll mp [] chunks).1 = (feedChunk mp [] chunks.flatten).1 := by
  cases chunks with
  | nil =>
    have h2 : feedChunk mp ([] : List Nat) ([] : List Nat) = ([], []) := by
      rw [feedChunk_eq, consume_none (by simp)]
      simp only [drain_nil]
      rfl
    simp [feedAll, h2]
  | cons c cs =>
    rw [show (c :: cs).flatten = c ++ cs.flatten from rfl]
    exact feedAll_eq_feedChunk mp cs [] c

/-! ### Scanning a single complete frame -/

theorem getD_append_right {l r : List Nat} {i : Nat} (h : l.length ≤ i) (d : Nat) :
    (l ++ r).getD i d = r.getD (i - l.length) d := by
  simp [List.getD_eq_getElem?_getD, List.getElem?_append_right h]

theorem mkFrame_cons (cls idb a b : Nat) (p : List Nat) :
    mkFrame cls idb p a b =
      SYNC_CHAR_1 :: SYNC_CHAR_2 :: cls :: idb :: p.length % 256 ::
        p.length / 256 :: (p ++ [a, b]) := rfl

theorem length_mkFrame (cls idb a b : Nat) (p : List Nat) :
    (mkFrame cls idb p a b).length = p.length + 8 := by
  simp [mkFrame]

/-- Scanning a buffer that starts with a complete, in-range frame whose
trailing bytes match the checksum: the frame is decoded and the cursor
advances past it. -/
theorem next_frame_good {R : Type} (mp : Nat → Nat → List Nat → R)
    (cls idb a b : Nat) (p rest : List Nat)
    (hp : p.length ≤ MAX_PAYLOAD_LEN)
    (hck : ubx_checksum (cls :: idb :: p.length % 256 :: p.length / 256 :: p) = (a, b)) :
    ParserIterNext mp (mkFrame cls idb p a b ++ rest) 0 =
      (some (.dispatched (mp cls idb p)), p.length + 8) := by
  set L := p.length with hL
  set buf := mkFrame cls idb p a b ++ rest with hbufdef
  have hbuf : buf = SYNC_CHAR_1 :: SYNC_CHAR_2 :: cls :: idb :: L % 256 ::
      L / 256 :: ((p ++ [a, b]) ++ rest) := by
    rw [hbufdef, mkFrame_cons]
    simp
  have hlen : buf.length = L + 8 + rest.length := by
    rw [hbufdef, List.length_append, length_mkFrame]
  have h0 : 0 < buf.length := by omega
  have hfind : (buf.drop 0).findIdx? (fun x => x == SYNC_CHAR_1) = some 0 := by
    rw [List.drop_zero, hbuf]
    simp [List.findIdx?_cons]
  have hmpk : buf.drop (0 + 0) = buf := List.drop_zero buf
  have hplen : packLen buf = L := by
    rw [hbuf]
    show L % 256 + 256 * (L / 256) = L
    omega
  have g1 : ¬ buf.length ≤ 1 := by omega
  have g2 : buf.getD 1 0 = SYNC_CHAR_2 := by rw [hbuf]; rfl
  have g3 : ¬ buf.length ≤ 5 := by omega
  have hdrop2 : buf.drop 2 = [cls, idb, L % 256, L / 256] ++ ((p ++ [a, b]) ++ rest) := by
    rw [hbuf]
    rfl
  have hdrop6 : buf.drop 6 = (p ++ [a, b]) ++ rest := by
    rw [hbuf]
    rfl
  have htail : ((p ++ [a, b]) ++ rest).take L = p := by
    rw [List.take_append_of_le_length (by simp),
      List.take_append_of_le_length (by omega), hL, List.take_length]
  have hspan : (buf.drop 2).take (4 + packLen buf) =
      cls :: idb :: L % 256 :: L / 256 :: p := by
    rw [hplen, hdrop2,
      show (4 : Nat) + L = ([cls, idb, L % 256, L / 256] : List Nat).length + L by simp,
      List.take_append, htail]
    rfl
  have hgd6 : buf.getD (6 + packLen buf) 0 = a := by
    rw [hplen]
    have he : buf.getD (6 + L) 0 = (buf.drop 6).getD L 0 := by
      simp [List.getD_eq_getElem?_getD, List.getElem?_drop]
    rw [he, hdrop6, getD_append_left (by simp) 0, getD_append_right (by omega) 0]
    simp
  have hgd7 : buf.getD (6 + packLen buf + 1) 0 = b := by
    rw [hplen]
    have he : buf.getD (6 + L + 1) 0 = (buf.drop 6).getD (L + 1) 0 := by
      have h1 : 6 + L + 1 = 6 + (L + 1) := by omega
      rw [h1]
      simp [List.getD_eq_getElem?_getD, List.getElem?_drop]
    rw [he, hdrop6, getD_append_left (by simp) 0, getD_append_right (by omega) 0]
    have h2 : L + 1 - p.length = 1 := by omega
    rw [h2]
    rfl
  have g6 : ubx_checksum (((buf.drop (0 + 0)).drop 2).take
        (4 + packLen (buf.drop (0 + 0)))) =
      ((buf.drop (0 + 0)).getD (6 + packLen (buf.drop (0 + 0))) 0,
       (buf.drop (0 + 0)).getD (6 + packLen (buf.drop (0 + 0)) + 1) 0) := by
    rw [hmpk, hspan, hgd6, hgd7, hck]
  have hgd2 : buf.getD 2 0 = cls := by rw [hbuf]; rfl
  have hgd3 : buf.getD 3 0 = idb := by rw [hbuf]; rfl
  have hmsg : (buf.drop 6).take (packLen buf) = p := by
    rw [hplen, hdrop6, htail]
  have hres := next_success mp buf 0 0 h0 hfind
    (by rw [hmpk]; exact g1) (by rw [hmpk]; exact g2) (by rw [hmpk]; exact g3)
    (by rw [hmpk, hplen]; omega) (by rw [hmpk, hplen]; omega) g6
  rw [hmpk] at hres
  rw [hres, hgd2, hgd3, hmsg, hplen]
  refine Prod.ext rfl ?_
  simp only []
  omega

/-- Scanning a buffer that starts with a complete, in-range frame whose
trailing byte pair does not match the computed checksum: exactly one
`InvalidChecksum` outcome is produced, with both fields combined
little-endian, and the cursor advances exactly 2 bytes past the marker. -/
theorem next_frame_bad {R : Type} (mp : Nat → Nat → List Nat → R)
    (cls idb a b : Nat) (p rest : List Nat)
    (hp : p.length ≤ MAX_PAYLOAD_LEN)
    (hck : ubx_checksum (cls :: idb :: p.length % 256 :: p.length / 256 :: p) ≠ (a, b)) :
    ParserIterNext mp (mkFrame cls idb p a b ++ rest) 0 =
      (some (.invalidChecksum (a + 256 * b)
        ((ubx_checksum (cls :: idb :: p.length % 256 :: p.length / 256 :: p)).1 +
          256 * (ubx_checksum (cls :: idb :: p.length % 256 :: p.length / 256 :: p)).2)),
       2) := by
  set L := p.length with hL
  set buf := mkFrame cls idb p a b ++ rest with hbufdef
  have hbuf : buf = SYNC_CHAR_1 :: SYNC_CHAR_2 :: cls :: idb :: L % 256 ::
      L / 256 :: ((p ++ [a, b]) ++ rest) := by
    rw [hbufdef, mkFrame_cons]
    simp
  have hlen : buf.length = L + 8 + rest.length := by
    rw [hbufdef, List.length_append, length_mkFrame]
  have h0 : 0 < buf.length := by omega
  have hfind : (buf.drop 0).findIdx? (fun x => x == SYNC_CHAR_1) = some 0 := by
    rw [List.drop_zero, hbuf]
    simp [List.findIdx?_cons]
  have hmpk : buf.drop (0 + 0) = buf := List.drop_zero buf
  have hplen : packLen buf = L := by
    rw [hbuf]
    show L % 256 + 256 * (L / 256) = L
    omega
  have g1 : ¬ buf.length ≤ 1 := by omega
  have g2 : buf.getD 1 0 = SYNC_CHAR_2 := by rw [hbuf]; rfl
  have g3 : ¬ buf.length ≤ 5 := by omega
  have hdrop2 : buf.drop 2 = [cls, idb, L % 256, L / 256] ++ ((p ++ [a, b]) ++ rest) := by
    rw [hbuf]
    rfl
  have hdrop6 : buf.drop 6 = (p ++ [a, b]) ++ rest := by
    rw [hbuf]
    rfl
  have htail : ((p ++ [a, b]) ++ rest).take L = p := by
    rw [List.take_append_of_le_length (by simp),
      List.take_append_of_le_length (by omega), hL, List.take_length]
  have hspan : (buf.drop 2).take (4 + packLen buf) =
      cls :: idb :: L % 256 :: L / 256 :: p := by
    rw [hplen, hdrop2,
      show (4 : Nat) + L = ([cls, idb, L % 256, L / 256] : List Nat).length + L by simp,
      List.take_append, htail]
    rfl
  have hgd6 : buf.getD (6 + packLen buf) 0 = a := by
    rw [hplen]
    have he : buf.getD (6 + L) 0 = (buf.drop 6).getD L 0 := by
      simp [List.getD_eq_getElem?_getD, List.getElem?_drop]
    rw [he, hdrop6, getD_append_left (by simp) 0, getD_append_right (by omega) 0]
    simp
  have hgd7 : buf.getD (6 + packLen buf + 1) 0 = b := by
    rw [hplen]
    have he : buf.getD (6 + L + 1) 0 = (buf.drop 6).getD (L + 1) 0 := by
      have h1 : 6 + L + 1 = 6 + (L + 1) := by omega
      rw [h1]
      simp [List.getD_eq_getElem?_getD, List.getElem?_drop]
    rw [he, hdrop6, getD_append_left (by simp) 0, getD_append_right (by omega) 0]
    have h2 : L + 1 - p.length = 1 := by omega
    rw [h2]
    rfl
  have g6 : ubx_checksum (((buf.drop (0 + 0)).drop 2).take
        (4 + packLen (buf.drop (0 + 0)))) ≠
      ((buf.drop (0 + 0)).getD (6 + packLen (buf.drop (0 + 0))) 0,
       (buf.drop (0 + 0)).getD (6 + packLen (buf.drop (0 + 0)) + 1) 0) := by
    rw [hmpk, hspan, hgd6, hgd7]
    exact hck
  have hres := next_mismatch mp buf 0 0 h0 hfind
    (by rw [hmpk]; exact g1) (by rw [hmpk]; exact g2) (by rw [hmpk]; exact g3)
    (by rw [hmpk, hplen]; omega) (by rw [hmpk, hplen]; omega) g6
  rw [hmpk] at hres
  rw [hres, hspan, hgd6, hgd7]

/-- A well-formed frame at the head of the buffer is decoded in one step. -/
theorem next_goodFrame {R : Type} (mp : Nat → Nat → List Nat → R)
    (cls idb : Nat) (p rest : List Nat) (hp : p.length ≤ MAX_PAYLOAD_LEN) :
    ParserIterNext mp (goodFrame cls idb p ++ rest) 0 =
      (some (.dispatched (mp cls idb p)), p.length + 8) := by
  unfold goodFrame
  exact next_frame_good mp cls idb _ _ p rest hp rfl

/-- A marker byte not followed by the second marker byte is skipped
silently: the scan continues 2 bytes further with no outcome from it. -/
theorem next_skip2 {R : Type} (mp : Nat → Nat → List Nat → R) (x : Nat) (rest : List Nat)
    (hx : x ≠ SYNC_CHAR_2) :
    ParserIterNext mp (SYNC_CHAR_1 :: x :: rest) 0 =
      ((ParserIterNext mp rest 0).1, 2 + (ParserIterNext mp rest 0).2) := by
  have h0 : 0 < (SYNC_CHAR_1 :: x :: rest).length := by simp
  have hfind : ((SYNC_CHAR_1 :: x :: rest).drop 0).findIdx? (fun y => y == SYNC_CHAR_1) =
      some 0 := by
    rw [List.drop_zero]
    simp [List.findIdx?_cons]
  have hskip := next_badsync2 mp (SYNC_CHAR_1 :: x :: rest) 0 0 h0 hfind
    (by rw [Nat.add_zero, List.drop_zero]; simp)
    (by rw [Nat.add_zero, List.drop_zero]; simpa using hx)
  rw [hskip, show (0 + 0 + 2 : Nat) = 2 from rfl,
    next_drop_shift mp (SYNC_CHAR_1 :: x :: rest) 2]
  rfl

/-- A sync pair whose little-endian length field exceeds `MAX_PAYLOAD_LEN`
is treated as a false match: no outcome, the scan continues 2 bytes past
the marker. -/
theorem next_skip_oversize {R : Type} (mp : Nat → Nat → List Nat → R)
    (cls idb l0 l1 : Nat) (rest : List Nat)
    (hover : MAX_PAYLOAD_LEN < l0 + 256 * l1) :
    ParserIterNext mp (SYNC_CHAR_1 :: SYNC_CHAR_2 :: cls :: idb :: l0 :: l1 :: rest) 0 =
      ((ParserIterNext mp (cls :: idb :: l0 :: l1 :: rest) 0).1,
        2 + (ParserIterNext mp (cls :: idb :: l0 :: l1 :: rest) 0).2) := by
  set buf := SYNC_CHAR_1 :: SYNC_CHAR_2 :: cls :: idb :: l0 :: l1 :: rest with hbuf
  have h0 : 0 < buf.length := by simp [hbuf]
  have hfind : (buf.drop 0).findIdx? (fun y => y == SYNC_CHAR_1) = some 0 := by
    rw [List.drop_zero, hbuf]
    simp [List.findIdx?_cons]
  have hmpk : buf.drop (0 + 0) = buf := List.drop_zero buf
  have hplen : packLen buf = l0 + 256 * l1 := by rw [hbuf]; rfl
  have hskip := next_oversize mp buf 0 0 h0 hfind
    (by rw [hmpk, hbuf]; simp)
    (by rw [hmpk, hbuf]; rfl)
    (by rw [hmpk, hbuf]; simp)
    (by rw [hmpk, hplen]; exact hover)
  rw [hskip, show (0 + 0 + 2 : Nat) = 2 from rfl, next_drop_shift mp buf 2]
  rfl

/-- If one scan step of `buf` reduces to the scan of a suffix `rest`
(cursor shifted by `k`), draining `buf` yields the outcomes of draining
`rest`. -/
theorem drain_of_next_shift {R : Type} (mp : Nat → Nat → List Nat → R)
    (buf rest : List Nat) (k : Nat) (hk : buf.drop k = rest)
    (hnext : ParserIterNext mp buf 0 =
      ((ParserIterNext mp rest 0).1, k + (ParserIterNext mp rest 0).2)) :
    (drainFrom mp buf 0).1 = (drainFrom mp rest 0).1 := by
  cases hres : ParserIterNext mp rest 0 with
  | mk o f =>
    rw [hres] at hnext
    cases o with
    | none =>
      rw [drain_none mp buf 0 (k + f) hnext, drain_none mp rest 0 f hres]
    | some o =>
      rw [drain_some mp buf 0 o (k + f) hnext, drain_some mp rest 0 o f hres]
      have hsh := drain_shift mp buf k f
      rw [hk] at hsh
      rw [hsh]

/-- Draining a single well-formed frame yields exactly the dispatched
outcome, with the cursor at the end of the store. -/
theorem drain_goodFrame {R : Type} (mp : Nat → Nat → List Nat → R)
    (cls idb : Nat) (p : List Nat) (hp : p.length ≤ MAX_PAYLOAD_LEN) :
    drainFrom mp (goodFrame cls idb p) 0 =
      ([Outcome.dispatched (mp cls idb p)], p.length + 8) := by
  have hgl : (goodFrame cls idb p).length = p.length + 8 := length_mkFrame _ _ _ _ _
  have hnil : goodFrame cls idb p ++ [] = goodFrame cls idb p := List.append_nil _
  have hnext : ParserIterNext mp (goodFrame cls idb p) 0 =
      (some (.dispatched (mp cls idb p)), p.length + 8) := by
    rw [← hnil]
    exact next_goodFrame mp cls idb p [] hp
  rw [drain_some mp _ 0 _ _ hnext,
    drain_none mp _ (p.length + 8) (p.length + 8)
      (next_stop mp _ (p.length + 8) (by omega))]

/-! ### Claim theorems -/

/-- A concrete dispatcher used by the witnesses below: it returns the
framed `(class, id, payload)` triple unchanged. -/
def mpTriple : Nat → Nat → List Nat → Nat × Nat × List Nat :=
  fun cls idb p => (cls, idb, p)

/-- C2: a well-formed frame (sync pair, length within `MAX_PAYLOAD_LEN`,
correct trailing checksum) fed whole to an empty `Parser` via `consume`
yields exactly one outcome — the packet dispatcher's result for
`(class, id, payload)` — and after the iterator is released the byte store
is empty. -/
theorem claim_C2_happy_path {R : Type} (mp : Nat → Nat → List Nat → R)
    (cls idb : Nat) (p : List Nat) (hp : p.length ≤ MAX_PAYLOAD_LEN) :
    feedChunk mp [] (goodFrame cls idb p) =
      ([Outcome.dispatched (mp cls idb p)], []) := by
  have hfg : (([] : List Nat) ++ goodFrame cls idb p).findIdx?
      (fun x => x == SYNC_CHAR_1) = some 0 := by
    rw [List.nil_append]
    show (goodFrame cls idb p).findIdx? (fun x => x == SYNC_CHAR_1) = some 0
    rw [goodFrame, mkFrame_cons]
    simp [List.findIdx?_cons]
  have hcons : parserConsume [] (goodFrame cls idb p) = (goodFrame cls idb p, 0) := by
    rw [consume_inchunk hfg (by simp)]
    simp
  rw [feedChunk_eq, hcons]
  simp only [drain_goodFrame mp cls idb p hp]
  rw [parserIterDrop_of_le (by rw [goodFrame, length_mkFrame]),
    List.drop_eq_nil_of_le (by rw [goodFrame, length_mkFrame])]

theorem claim_C2_witness :
    (([1, 2, 3] : List Nat).length ≤ MAX_PAYLOAD_LEN) ∧
    feedChunk mpTriple [] (goodFrame 6 7 [1, 2, 3]) =
      ([Outcome.dispatched (6, 7, [1, 2, 3])], []) :=
  ⟨by decide, claim_C2_happy_path mpTriple 6 7 [1, 2, 3] (by decide)⟩

/-- C3: for every candidate frame whose computed checksum over
`class..last payload byte` differs from its two trailing bytes — with no
restriction on the body bytes — `next` emits exactly one `ChecksumMismatch`
whose `expect` and `got` fields are the little-endian 16-bit combinations
of the trailing byte pair and the computed pair respectively, and advances
the cursor exactly 2 bytes past the marker position (not past the declared
length); the same holds with the marker at any position after marker-free
noise, and when the resynchronization region contains no further marker
byte, a subsequent valid frame in the stream still decodes. -/
theorem claim_C3_checksum_mismatch {R : Type} (mp : Nat → Nat → List Nat → R)
    (cls idb a b cls' idb' : Nat) (p p' n rest : List Nat)
    (hp : p.length ≤ MAX_PAYLOAD_LEN)
    (hck : ubx_checksum (cls :: idb :: p.length % 256 :: p.length / 256 :: p) ≠ (a, b)) :
    ParserIterNext mp (mkFrame cls idb p a b ++ rest) 0 =
      (some (.invalidChecksum (a + 256 * b)
        ((ubx_checksum (cls :: idb :: p.length % 256 :: p.length / 256 :: p)).1 +
          256 * (ubx_checksum (cls :: idb :: p.length % 256 :: p.length / 256 :: p)).2)),
       2) ∧
    (SYNC_CHAR_1 ∉ n →
      ParserIterNext mp (n ++ (mkFrame cls idb p a b ++ rest)) 0 =
        (some (.invalidChecksum (a + 256 * b)
          ((ubx_checksum (cls :: idb :: p.length % 256 :: p.length / 256 :: p)).1 +
            256 * (ubx_checksum (cls :: idb :: p.length % 256 :: p.length / 256 :: p)).2)),
         n.length + 2)) ∧
    (SYNC_CHAR_1 ∉ (cls :: idb :: p.length % 256 :: p.length / 256 :: (p ++ [a, b])) →
      p'.length ≤ MAX_PAYLOAD_LEN →
      (feedChunk mp [] (mkFrame cls idb p a b ++ goodFrame cls' idb' p')).1 =
        [Outcome.invalidChecksum (a + 256 * b)
          ((ubx_checksum (cls :: idb :: p.length % 256 :: p.length / 256 :: p)).1 +
            256 * (ubx_checksum (cls :: idb :: p.length % 256 :: p.length / 256 :: p)).2),
         Outcome.dispatched (mp cls' idb' p')]) := by
  refine ⟨next_frame_bad mp cls idb a b p rest hp hck, ?_, ?_⟩
  · intro hn
    rcases next_strip mp n (mkFrame cls idb p a b ++ rest) hn with ⟨he, _⟩ | heq
    · rw [next_frame_bad mp cls idb a b p rest hp hck] at he
      exact absurd (congrArg Prod.fst he) (by simp)
    · rw [heq, next_frame_bad mp cls idb a b p rest hp hck]
  · intro htail hp'
    rw [feed_eq_drain, List.nil_append]
    have hnext := next_frame_bad mp cls idb a b p (goodFrame cls' idb' p') hp hck
    rw [drain_some mp _ 0 _ 2 hnext]
    have hsh := drain_shift mp (mkFrame cls idb p a b ++ goodFrame cls' idb' p') 2 0
    rw [Nat.add_zero] at hsh
    have hdrop2 : (mkFrame cls idb p a b ++ goodFrame cls' idb' p').drop 2 =
        (cls :: idb :: p.length % 256 :: p.length / 256 :: (p ++ [a, b])) ++
          goodFrame cls' idb' p' := by
      rw [mkFrame_cons]
      simp
    rw [hsh, hdrop2]
    simp only []
    rw [drain_strip mp _ _ htail, drain_goodFrame mp cls' idb' p' hp']

theorem claim_C3_witness :
    (ubx_checksum (1 :: 2 :: ([3] : List Nat).length % 256 ::
        ([3] : List Nat).length / 256 :: [3]) ≠ (0, 0)) ∧
    ParserIterNext mpTriple (mkFrame 1 2 [3] 0 0 ++ [9]) 0 =
      (some (.invalidChecksum (0 + 256 * 0)
        ((ubx_checksum (1 :: 2 :: ([3] : List Nat).length % 256 ::
            ([3] : List Nat).length / 256 :: [3])).1 +
          256 * (ubx_checksum (1 :: 2 :: ([3] : List Nat).length % 256 ::
            ([3] : List Nat).length / 256 :: [3])).2)),
       2) ∧
    ParserIterNext mpTriple ([7] ++ (mkFrame 1 2 [3] 0 0 ++ [9])) 0 =
      (some (.invalidChecksum (0 + 256 * 0)
        ((ubx_checksum (1 :: 2 :: ([3] : List Nat).length % 256 ::
            ([3] : List Nat).length / 256 :: [3])).1 +
          256 * (ubx_checksum (1 :: 2 :: ([3] : List Nat).length % 256 ::
            ([3] : List Nat).length / 256 :: [3])).2)),
       ([7] : List Nat).length + 2) ∧
    (feedChunk mpTriple [] (mkFrame 1 2 [3] 0 0 ++ goodFrame 4 5 [6])).1 =
      [Outcome.invalidChecksum (0 + 256 * 0)
        ((ubx_checksum (1 :: 2 :: ([3] : List Nat).length % 256 ::
            ([3] : List Nat).length / 256 :: [3])).1 +
          256 * (ubx_checksum (1 :: 2 :: ([3] : List Nat).length % 256 ::
            ([3] : List Nat).length / 256 :: [3])).2),
       Outcome.dispatched (mpTriple 4 5 [6])] ∧
    ParserIterNext mpTriple (mkFrame 1 2 [SYNC_CHAR_1] 0 0 ++ []) 0 =
      (some (.invalidChecksum (0 + 256 * 0)
        ((ubx_checksum (1 :: 2 :: ([SYNC_CHAR_1] : List Nat).length % 256 ::
            ([SYNC_CHAR_1] : List Nat).length / 256 :: [SYNC_CHAR_1])).1 +
          256 * (ubx_checksum (1 :: 2 :: ([SYNC_CHAR_1] : List Nat).length % 256 ::
            ([SYNC_CHAR_1] : List Nat).length / 256 :: [SYNC_CHAR_1])).2)),
       2) :=
  ⟨by decide,
    (claim_C3_checksum_mismatch mpTriple 1 2 0 0 4 5 [3] [6] [7] [9]
      (by decide) (by decide)).1,
    (claim_C3_checksum_mismatch mpTriple 1 2 0 0 4 5 [3] [6] [7] [9]
      (by decide) (by decide)).2.1 (by decide),
    (claim_C3_checksum_mismatch mpTriple 1 2 0 0 4 5 [3] [6] [7] [9]
      (by decide) (by decide)).2.2 (by decide) (by decide),
    (claim_C3_checksum_mismatch mpTriple 1 2 0 0 4 5 [SYNC_CHAR_1] [6] [7] []
      (by decide) (by decide)).1⟩

/-- C5: a marker-byte-1 not followed by marker-byte-2 produces no outcome —
the scanner silently advances the cursor 2 bytes past it and retries — and
a later valid frame in the stream is still decoded. -/
theorem claim_C5_stray_marker {R : Type} (mp : Nat → Nat → List Nat → R)
    (x cls idb : Nat) (n1 p rest : List Nat)
    (hn1 : SYNC_CHAR_1 ∉ n1) (hx : x ≠ SYNC_CHAR_2)
    (hp : p.length ≤ MAX_PAYLOAD_LEN) :
    ParserIterNext mp (SYNC_CHAR_1 :: x :: rest) 0 =
      ((ParserIterNext mp rest 0).1, 2 + (ParserIterNext mp rest 0).2) ∧
    (feedChunk mp [] (n1 ++ (SYNC_CHAR_1 :: x :: goodFrame cls idb p))).1 =
      [Outcome.dispatched (mp cls idb p)] := by
  refine ⟨next_skip2 mp x rest hx, ?_⟩
  rw [feed_eq_drain, List.nil_append, drain_strip mp n1 _ hn1,
    drain_of_next_shift mp (SYNC_CHAR_1 :: x :: goodFrame cls idb p)
      (goodFrame cls idb p) 2 rfl (next_skip2 mp x (goodFrame cls idb p) hx),
    drain_goodFrame mp cls idb p hp]

theorem claim_C5_witness :
    ((3 : Nat) ≠ SYNC_CHAR_2) ∧
    ParserIterNext mpTriple (SYNC_CHAR_1 :: 3 :: [5]) 0 =
      ((ParserIterNext mpTriple [5] 0).1, 2 + (ParserIterNext mpTriple [5] 0).2) ∧
    (feedChunk mpTriple [] ([9] ++ (SYNC_CHAR_1 :: 3 :: goodFrame 6 7 [1]))).1 =
      [Outcome.dispatched (6, 7, [1])] :=
  ⟨by decide,
    claim_C5_stray_marker mpTriple 3 6 7 [9] [1] [5] (by decide) (by decide) (by decide)⟩

/-- C6: for every candidate with a valid sync pair whose little-endian
length field exceeds `MAX_PAYLOAD_LEN` — with no restriction on the header
bytes — `next` surfaces no error: the candidate is treated as a false
match, the cursor advances exactly 2 bytes past the marker, and scanning
resumes from there on the remaining bytes; when those skipped header bytes
contain no further marker byte, a following valid frame decodes with no
misinterpretation of subsequent bytes. -/
theorem claim_C6_oversized_length {R : Type} (mp : Nat → Nat → List Nat → R)
    (cls idb l0 l1 cls' idb' : Nat) (p' rest : List Nat)
    (hover : MAX_PAYLOAD_LEN < l0 + 256 * l1) :
    ParserIterNext mp (SYNC_CHAR_1 :: SYNC_CHAR_2 :: cls :: idb :: l0 :: l1 :: rest) 0 =
      ((ParserIterNext mp (cls :: idb :: l0 :: l1 :: rest) 0).1,
        2 + (ParserIterNext mp (cls :: idb :: l0 :: l1 :: rest) 0).2) ∧
    (SYNC_CHAR_1 ∉ [cls, idb, l0, l1] → p'.length ≤ MAX_PAYLOAD_LEN →
      (feedChunk mp [] (SYNC_CHAR_1 :: SYNC_CHAR_2 :: cls :: idb :: l0 :: l1 ::
          goodFrame cls' idb' p')).1 = [Outcome.dispatched (mp cls' idb' p')]) := by
  refine ⟨next_skip_oversize mp cls idb l0 l1 rest hover, ?_⟩
  intro hn hp'
  rw [feed_eq_drain, List.nil_append,
    drain_of_next_shift mp
      (SYNC_CHAR_1 :: SYNC_CHAR_2 :: cls :: idb :: l0 :: l1 :: goodFrame cls' idb' p')
      (cls :: idb :: l0 :: l1 :: goodFrame cls' idb' p') 2 rfl
      (next_skip_oversize mp cls idb l0 l1 (goodFrame cls' idb' p') hover)]
  have hsplit : cls :: idb :: l0 :: l1 :: goodFrame cls' idb' p' =
      [cls, idb, l0, l1] ++ goodFrame cls' idb' p' := rfl
  rw [hsplit, drain_strip mp _ _ hn, drain_goodFrame mp cls' idb' p' hp']

theorem claim_C6_witness :
    (MAX_PAYLOAD_LEN < 255 + 256 * 255) ∧
    ParserIterNext mpTriple
      (SYNC_CHAR_1 :: SYNC_CHAR_2 :: 1 :: 2 :: 255 :: 255 :: [4]) 0 =
      ((ParserIterNext mpTriple (1 :: 2 :: 255 :: 255 :: [4]) 0).1,
        2 + (ParserIterNext mpTriple (1 :: 2 :: 255 :: 255 :: [4]) 0).2) ∧
    (feedChunk mpTriple [] (SYNC_CHAR_1 :: SYNC_CHAR_2 :: 1 :: 2 :: 255 :: 255 ::
        goodFrame 6 7 [8])).1 = [Outcome.dispatched (6, 7, [8])] ∧
    ParserIterNext mpTriple
      (SYNC_CHAR_1 :: SYNC_CHAR_2 :: SYNC_CHAR_1 :: 2 :: 3 :: SYNC_CHAR_1 :: [4]) 0 =
      ((ParserIterNext mpTriple (SYNC_CHAR_1 :: 2 :: 3 :: SYNC_CHAR_1 :: [4]) 0).1,
        2 + (ParserIterNext mpTriple (SYNC_CHAR_1 :: 2 :: 3 :: SYNC_CHAR_1 :: [4]) 0).2) :=
  ⟨by decide,
    (claim_C6_oversized_length mpTriple 1 2 255 255 6 7 [8] [4] (by decide)).1,
    (claim_C6_oversized_length mpTriple 1 2 255 255 6 7 [8] [4]
      (by decide)).2 (by decide) (by decide),
    (claim_C6_oversized_length mpTriple SYNC_CHAR_1 2 3 SYNC_CHAR_1 6 7 [8] [4]
      (by decide)).1⟩

/-- C7: a candidate frame with a valid sync pair and in-range length but
fewer than `6 + length + 2` bytes available returns no outcome and leaves
the cursor at the marker; after compaction the candidate is retained whole,
and once the remaining bytes arrive the reassembled frame decodes. -/
theorem claim_C7_incomplete_frame {R : Type} (mp : Nat → Nat → List Nat → R)
    (cls idb l0 l1 : Nat) (n1 part : List Nat)
    (hn1 : SYNC_CHAR_1 ∉ n1)
    (hlen : l0 + 256 * l1 ≤ MAX_PAYLOAD_LEN)
    (hshort : part.length < l0 + 256 * l1 + 2) :
    ParserIterNext mp (SYNC_CHAR_1 :: SYNC_CHAR_2 :: cls :: idb :: l0 :: l1 :: part) 0 =
      (none, 0) ∧
    feedChunk mp []
      (n1 ++ (SYNC_CHAR_1 :: SYNC_CHAR_2 :: cls :: idb :: l0 :: l1 :: part)) =
      ([], SYNC_CHAR_1 :: SYNC_CHAR_2 :: cls :: idb :: l0 :: l1 :: part) ∧
    (∀ (c : List Nat) (cls2 idb2 : Nat) (p2 : List Nat), p2.length ≤ MAX_PAYLOAD_LEN →
      (SYNC_CHAR_1 :: SYNC_CHAR_2 :: cls :: idb :: l0 :: l1 :: part) ++ c =
        goodFrame cls2 idb2 p2 →
      feedChunk mp (SYNC_CHAR_1 :: SYNC_CHAR_2 :: cls :: idb :: l0 :: l1 :: part) c =
        ([Outcome.dispatched (mp cls2 idb2 p2)], [])) := by
  set cand := SYNC_CHAR_1 :: SYNC_CHAR_2 :: cls :: idb :: l0 :: l1 :: part with hcand
  have hclen : cand.length = 6 + part.length := by simp [hcand]; omega
  have hnone : ParserIterNext mp cand 0 = (none, 0) := by
    have h0 : 0 < cand.length := by omega
    have hfind : (cand.drop 0).findIdx? (fun y => y == SYNC_CHAR_1) = some 0 := by
      rw [List.drop_zero, hcand]
      simp [List.findIdx?_cons]
    have hmpk : cand.drop (0 + 0) = cand := List.drop_zero cand
    have hplen : packLen cand = l0 + 256 * l1 := by rw [hcand]; rfl
    exact next_incomplete mp cand 0 0 h0 hfind
      (by rw [hmpk]; omega)
      (by rw [hmpk, hcand]; rfl)
      (by rw [hmpk]; omega)
      (by rw [hmpk, hplen]; omega)
      (by rw [hmpk, hplen]; omega)
  refine ⟨hnone, ?_, ?_⟩
  · have hfg : (([] : List Nat) ++ (n1 ++ cand)).findIdx?
        (fun x => x == SYNC_CHAR_1) = some (0 + n1.length) := by
      rw [List.nil_append, List.findIdx?_append, noSync_findIdx? hn1]
      have : cand.findIdx? (fun x => x == SYNC_CHAR_1) = some 0 := by
        rw [hcand]
        simp [List.findIdx?_cons]
      rw [this]
      rfl
    have hcons : parserConsume [] (n1 ++ cand) = (cand, 0) := by
      rw [consume_inchunk hfg (by simp)]
      simp
    rw [feedChunk_eq, hcons]
    simp only [drain_none mp cand 0 0 hnone]
    rw [parserIterDrop_of_le (by omega), List.drop_zero]
  · intro c cls2 idb2 p2 hp2 hEq
    have hfg : (cand ++ c).findIdx? (fun x => x == SYNC_CHAR_1) = some 0 := by
      rw [hcand]
      simp [List.findIdx?_cons]
    have hcons : parserConsume cand c = (goodFrame cls2 idb2 p2, 0) := by
      rw [consume_instore hfg (by omega), hEq]
    rw [feedChunk_eq, hcons]
    simp only [drain_goodFrame mp cls2 idb2 p2 hp2]
    rw [parserIterDrop_of_le (by rw [goodFrame, length_mkFrame]),
      List.drop_eq_nil_of_le (by rw [goodFrame, length_mkFrame])]

theorem claim_C7_witness :
    (([1] : List Nat).length < 2 + 256 * 0 + 2) ∧
    ParserIterNext mpTriple
      (SYNC_CHAR_1 :: SYNC_CHAR_2 :: 6 :: 7 :: 2 :: 0 :: [1]) 0 = (none, 0) ∧
    feedChunk mpTriple []
      ([9] ++ (SYNC_CHAR_1 :: SYNC_CHAR_2 :: 6 :: 7 :: 2 :: 0 :: [1])) =
      ([], SYNC_CHAR_1 :: SYNC_CHAR_2 :: 6 :: 7 :: 2 :: 0 :: [1]) ∧
    feedChunk mpTriple (SYNC_CHAR_1 :: SYNC_CHAR_2 :: 6 :: 7 :: 2 :: 0 :: [1])
      [2, 18, 83] = ([Outcome.dispatched (6, 7, [1, 2])], []) := by
  have h := claim_C7_incomplete_frame mpTriple 6 7 2 0 [9] [1]
    (by decide) (by decide) (by decide)
  exact ⟨by decide, h.1, h.2.1, h.2.2 [2, 18, 83] 6 7 [1, 2] (by decide) (by decide)⟩

/-- C4: the absorption policy of `Parser::consume` over the concatenation
store-then-chunk: a marker only within the chunk discards the store and
retains the chunk from the marker on; a marker within the buffered bytes
appends the chunk in full; no marker anywhere drops everything, so a
pure-noise stream never grows the store. -/
theorem claim_C4_absorption (store chunk : List Nat) :
    (SYNC_CHAR_1 ∉ store →
      ∀ j, chunk.findIdx? (fun x => x == SYNC_CHAR_1) = some j →
        parserConsume store chunk = (chunk.drop j, 0)) ∧
    (SYNC_CHAR_1 ∈ store → (parserConsume store chunk).1 = store ++ chunk) ∧
    (SYNC_CHAR_1 ∉ store → SYNC_CHAR_1 ∉ chunk → parserConsume store chunk = ([], 0)) := by
  refine ⟨?_, ?_, ?_⟩
  · intro hns j hj
    have hfg : (store ++ chunk).findIdx? (fun x => x == SYNC_CHAR_1) =
        some (j + store.length) := by
      rw [List.findIdx?_append, noSync_findIdx? hns, hj]
      rfl
    rw [consume_inchunk hfg (by omega)]
    have : j + store.length - store.length = j := by omega
    rw [this]
  · intro hms
    have hsome : (store.findIdx? (fun x => x == SYNC_CHAR_1)).isSome = true := by
      rw [List.findIdx?_isSome, List.any_eq_true]
      exact ⟨SYNC_CHAR_1, hms, by simp⟩
    obtain ⟨q, hq⟩ := Option.isSome_iff_exists.mp hsome
    have hql : q < store.length := findIdx?_some_lt hq
    have hfg : (store ++ chunk).findIdx? (fun x => x == SYNC_CHAR_1) = some q := by
      rw [List.findIdx?_append, hq]
      rfl
    rw [consume_instore hfg hql]
  · intro hns hnc
    exact consume_none (by
      rw [List.findIdx?_append, noSync_findIdx? hns, noSync_findIdx? hnc]
      rfl)

theorem claim_C4_witness :
    parserConsume [1, 2] [3, SYNC_CHAR_1, 4] = ([SYNC_CHAR_1, 4], 0) ∧
    (parserConsume [1, SYNC_CHAR_1] [3, 4]).1 = [1, SYNC_CHAR_1] ++ [3, 4] ∧
    parserConsume [1, 2] [3, 4] = ([], 0) :=
  ⟨(claim_C4_absorption [1, 2] [3, SYNC_CHAR_1, 4]).1 (by decide) 1 (by decide),
   (claim_C4_absorption [1, SYNC_CHAR_1] [3, 4]).2.1 (by decide),
   (claim_C4_absorption [1, 2] [3, 4]).2.2 (by decide) (by decide)⟩

/-- C8: releasing a `ParserIter` runs the one drop-time compaction: it
removes from the byte store exactly the prefix of length equal to the final
cursor, leaves all bytes from the cursor onward unchanged, and is safe even
when the cursor equals the store's length. -/
theorem claim_C8_release_compaction (buf : List Nat) (off : Nat)
    (h : off ≤ buf.length) :
    parserIterDrop buf off = buf.drop off ∧
    buf.take off ++ parserIterDrop buf off = buf ∧
    (parserIterDrop buf off).length = buf.length - off ∧
    (off = buf.length → parserIterDrop buf off = []) := by
  refine ⟨parserIterDrop_of_le h, ?_, ?_, ?_⟩
  · rw [parserIterDrop_of_le h, List.take_append_drop]
  · rw [parserIterDrop_of_le h, List.length_drop]
  · intro heq
    rw [parserIterDrop_of_le h, List.drop_eq_nil_of_le (by omega)]

theorem claim_C8_witness :
    parserIterDrop [1, 2, 3] 2 = [3] ∧
    [1, 2] ++ parserIterDrop [1, 2, 3] 2 = [1, 2, 3] ∧
    parserIterDrop [1, 2, 3] 3 = [] := by
  have h2 := claim_C8_release_compaction [1, 2, 3] 2 (by decide)
  have h3 := claim_C8_release_compaction [1, 2, 3] 3 (by decide)
  exact ⟨h2.1, h2.2.1, h3.2.2.2 (by decide)⟩

/-- C10: `ParserIter::next` terminates (it is a total function here by
well-founded recursion on `buf.length - off`), the cursor never decreases,
never exceeds the store length when it starts inside the store, advances by
at least 2 whenever an outcome is yielded, and therefore the guard of the
drop-time drain is never violated. -/
theorem claim_C10_cursor_discipline {R : Type} (mp : Nat → Nat → List Nat → R)
    (buf : List Nat) (off : Nat) (h : off ≤ buf.length) :
    off ≤ (ParserIterNext mp buf off).2 ∧
    (ParserIterNext mp buf off).2 ≤ buf.length ∧
    ((ParserIterNext mp buf off).1.isSome = true →
      off + 2 ≤ (ParserIterNext mp buf off).2) ∧
    parserIterDrop buf (ParserIterNext mp buf off).2 =
      buf.drop (ParserIterNext mp buf off).2 := by
  have hc := next_cursor mp buf off
  have hle : (ParserIterNext mp buf off).2 ≤ buf.length := by omega
  exact ⟨hc.1, hle, fun hs => (hc.2.2 hs).1, parserIterDrop_of_le hle⟩

theorem claim_C10_witness :
    (2 : Nat) ≤ ([1, SYNC_CHAR_1, 3, 4] : List Nat).length ∧
    2 ≤ (ParserIterNext mpTriple [1, SYNC_CHAR_1, 3, 4] 2).2 ∧
    (ParserIterNext mpTriple [1, SYNC_CHAR_1, 3, 4] 2).2 ≤ 4 :=
  ⟨by decide,
    (claim_C10_cursor_discipline mpTriple [1, SYNC_CHAR_1, 3, 4] 2 (by decide)).1,
    (claim_C10_cursor_discipline mpTriple [1, SYNC_CHAR_1, 3, 4] 2 (by decide)).2.1⟩

/-! ### The ring-buffer storage backend (`CircularBuffer`) -/

/-- `CircularBuffer` (src/ublox/src/parser.rs lines 10-14): a byte FIFO
over a fixed backing region with `head`/`tail` indices.  In the source the
indices are incremented without wrapping; an operation that indexes outside
the backing slice — a Rust panic — is modelled as `none`. -/
structure CircularBuffer where
  buf : List Nat
  head : Nat
  tail : Nat
  deriving DecidableEq

/-- `CircularBuffer::new` over a zeroed backing region of size `n`, as built
in the source's tests (`let mut buf = [0; 5]`). -/
def CircularBuffer.new (n : Nat) : CircularBuffer :=
  { buf := List.replicate n 0, head := 0, tail := 0 }

/-- `CircularBuffer::len` (lines 25-32). -/
def CircularBuffer.len (cb : CircularBuffer) : Nat :=
  let l := cb.buf.length + cb.tail - cb.head
  if cb.buf.length ≤ l then l - cb.buf.length else l

/-- `CircularBuffer::push` (lines 35-42).  `none` models the panic of
`self.buf[self.tail] = data` when `self.tail` is outside the backing slice
(and of `%` when the backing is empty); note that `self.tail += 1` does not
wrap around. -/
def CircularBuffer.push (cb : CircularBuffer) (data : Nat) :
    Option (CircularBuffer × Bool) :=
  if cb.buf.length = 0 then none
  else if (cb.tail + 1) % cb.buf.length = cb.head then some (cb, false)
  else if cb.tail < cb.buf.length then
    some ({ cb with buf := cb.buf.set cb.tail data, tail := cb.tail + 1 }, true)
  else none

/-- `CircularBuffer::pop` (lines 45-52).  `none` models the panic of the
read `self.buf[self.head]` when `self.head` is outside the backing slice;
`self.head += 1` does not wrap around. -/
def CircularBuffer.pop (cb : CircularBuffer) :
    Option (CircularBuffer × Option Nat) :=
  if cb.head = cb.tail then some (cb, none)
  else if cb.head < cb.buf.length then
    some ({ cb with head := cb.head + 1 }, some (cb.buf.getD cb.head 0))
  else none

/-- A push/pop command for driving a `CircularBuffer`. -/
inductive CBOp : Type where
  | push (b : Nat) : CBOp
  | pop : CBOp
  deriving DecidableEq

/-- Run a sequence of push/pop operations, propagating a panic as `none`. -/
def CircularBuffer.run (cb : CircularBuffer) : List CBOp → Option CircularBuffer
  | [] => some cb
  | CBOp.push b :: ops => (cb.push b).bind fun r => r.1.run ops
  | CBOp.pop :: ops => cb.pop.bind fun r => r.1.run ops

/-- C9 (evaluation of the code at the failing input): on a backing region
of size 5 — usable capacity 4 under the claimed FIFO semantics — after
`push 13..16`, four pops and a successful `push 17`, exactly one byte is
stored (`len = 1`, far from full), yet the next `push 18` indexes `buf[5]`,
out of bounds: the code panics where the claimed FIFO must store the byte
and return `true`. -/
theorem claim_C9_eval :
    (CircularBuffer.run (CircularBuffer.new 5)
        [CBOp.push 13, CBOp.push 14, CBOp.push 15, CBOp.push 16,
         CBOp.pop, CBOp.pop, CBOp.pop, CBOp.pop, CBOp.push 17]).map
        CircularBuffer.len = some 1 ∧
    CircularBuffer.run (CircularBuffer.new 5)
        [CBOp.push 13, CBOp.push 14, CBOp.push 15, CBOp.push 16,
         CBOp.pop, CBOp.pop, CBOp.pop, CBOp.pop, CBOp.push 17, CBOp.push 18] =
      none := by
  constructor <;> rfl

end Ublox
